import Mathlib

/-!
Shallow embedding of the PyRudi running-dinner assignment engine
(`src/events/optimization.py`, `src/events/routing.py`, `src/events/views.py`,
`src/events/models.py`, `src/optimization/models.py`) and proofs about the
specified properties.  Python floats are modelled by `ℚ`, Python dicts by
functions (total functions for the distance matrix, which the code makes
total with explicit fallbacks, and `Option`-valued functions where the code
uses `dict.get` with an `inf` default), and Django rows by explicit record
lists together with an explicit database-state transition function.
-/

namespace RD

/-- The three courses, `['appetizer', 'main_course', 'dessert']` in source order. -/
inductive Course : Type
| appetizer
| mainCourse
| dessert
deriving DecidableEq

/-- `self.courses = ['appetizer', 'main_course', 'dessert']`. -/
def coursesList : List Course := [.appetizer, .mainCourse, .dessert]

/-- A dictionary keyed by the three courses (the Python code uses string-keyed
dicts whose keys are exactly the three course names). -/
structure CourseMap (α : Type) : Type where
  appetizer : α
  mainCourse : α
  dessert : α
deriving DecidableEq

def CourseMap.get {α : Type} (m : CourseMap α) : Course → α
| .appetizer => m.appetizer
| .mainCourse => m.mainCourse
| .dessert => m.dessert

def CourseMap.set {α : Type} (m : CourseMap α) : Course → α → CourseMap α
| .appetizer, a => { m with appetizer := a }
| .mainCourse, a => { m with mainCourse := a }
| .dessert, a => { m with dessert := a }

def CourseMap.const {α : Type} (a : α) : CourseMap α := ⟨a, a, a⟩

/-- The slice of `accounts.models.Team` the optimizer reads: the primary key
and the `needs_guest_kitchen` predicate consumed by `assign_guest_kitchens`. -/
structure Team : Type where
  id : Nat
  needsGuestKitchen : Bool := false
deriving DecidableEq

/-- The slice of `events.models.GuestKitchen` the optimizer reads. -/
structure Kitchen : Type where
  id : Nat
  maxTeams : Nat
  availableCourses : List Course := []
deriving DecidableEq

/-- `GuestKitchen.can_host_course`:
`return not self.available_courses or course in self.available_courses`. -/
def Kitchen.canHostCourse (k : Kitchen) (c : Course) : Bool :=
  k.availableCourses.isEmpty || k.availableCourses.contains c

/-- Keys of `self.after_party_distances`: either a team id or a
`'kitchen_<id>'` string. -/
inductive LocId : Type
| team : Nat → LocId
| kitchen : Nat → LocId
deriving DecidableEq

/-- One entry of `assignment['guest_kitchen_usage']` as written by the
opportunistic pass of `assign_guest_kitchens`. -/
structure KitchenUse : Type where
  kitchen : Kitchen
  distanceSavings : ℚ
  originalHost : Team
deriving DecidableEq

/-- One element of `solution['assignments']` in the heuristic path. -/
structure SAssign : Type where
  team : Team
  hosts : CourseMap (Option Team)
  courseHosted : Course
  distances : CourseMap ℚ
  totalDistance : ℚ
  guestKitchenUsage : CourseMap (Option KitchenUse) := CourseMap.const none
  afterpartyRoute : Option (LocId × ℚ) := none
deriving DecidableEq

/-- `solution['afterparty_stats']`. -/
structure APStats : Type where
  totalDistance : ℚ
  averageDistance : ℚ
  teamsCount : Nat
deriving DecidableEq

/-- The solution dictionary fields the persister and extender read. -/
structure Solution : Type where
  assignments : List SAssign
  objectiveValue : ℚ
  afterpartyStats : Option APStats := none
deriving DecidableEq

/-- Error kinds raised by the engine (`raise ValueError(...)` sites). -/
inductive OptError : Type
| insufficientTeams
| kitchenUnavailable
| other : Nat → OptError
deriving DecidableEq

/-- `OptimizationRun.status` choices. -/
inductive RunStatus : Type
| pending
| running
| completed
| failed
| cancelled
deriving DecidableEq

/-- `Event.status` values touched by `start_optimization`; `other` stands for
any of the remaining lifecycle states. -/
inductive EventStatus : Type
| registrationClosed
| optimizationRunning
| optimized
| other : Nat → EventStatus
deriving DecidableEq

/-- The `OptimizationRun` columns `start_optimization` writes. -/
structure RunRec : Type where
  runId : Nat
  status : RunStatus
  errorMessage : Option Nat := none
deriving DecidableEq

/-- The `TeamAssignment` columns `start_optimization` writes. -/
structure TARec : Type where
  runId : Nat
  team : Team
  course : Course
  hosts : CourseMap (Option Team)
  distances : CourseMap ℚ
  totalDistance : ℚ
deriving DecidableEq

/-- The database state of one event: its status, its optimization runs and
their team assignments. -/
structure DbState : Type where
  eventStatus : EventStatus
  runs : List RunRec
  assignments : List TARec
deriving DecidableEq

/-- `events/views.py start_optimization`, lines 567–695, as a transition on the
event's database state.  `outcome` is the result of `optimizer.optimize()`.
The code runs with no surrounding transaction:
1. `event.status = 'optimization_running'; event.save()`;
2. `old_runs.delete()` — deletes every prior run, cascading to its
   `TeamAssignment` rows;
3. `OptimizationRun.objects.create(..., status='running', ...)`;
4. `solution = optimizer.optimize()`; on success one `TeamAssignment` per
   solution assignment is created, the run is marked `completed` and the event
   `optimized`; on any exception the `except` branch only sets
   `event.status = 'registration_closed'` — the new run keeps `status='running'`
   and no `error_message` is recorded. -/
def startOptimization (s : DbState) (newRunId : Nat)
    (outcome : Except OptError Solution) : DbState :=
  let s1 : DbState := { s with eventStatus := .optimizationRunning }
  let oldIds : List Nat := s1.runs.map (fun r => r.runId)
  let s2 : DbState := { s1 with
    runs := []
    assignments := s1.assignments.filter (fun a => decide (a.runId ∉ oldIds)) }
  let s3 : DbState := { s2 with
    runs := s2.runs ++ [{ runId := newRunId, status := .running }] }
  match outcome with
  | .ok sol =>
    let newRows : List TARec := sol.assignments.map (fun a =>
      { runId := newRunId, team := a.team, course := a.courseHosted,
        hosts := a.hosts, distances := a.distances,
        totalDistance := a.totalDistance })
    let s4 : DbState := { s3 with assignments := s3.assignments ++ newRows }
    { s4 with
      runs := s4.runs.map (fun r =>
        if r.runId = newRunId then { r with status := .completed } else r)
      eventStatus := .optimized }
  | .error _ =>
    { s3 with eventStatus := .registrationClosed }

/-! ### Phase C — route re-threading (`simple_running_dinner_solution`, lines 560–629)

`self.distances` is total on team-id pairs after `calculate_distances` patched
every missing entry (proved below as `cdPatch_total`), so the team-to-team
matrix is modelled as a total function `TDist`. -/

/-- Total team-to-team distance matrix `self.distances`. -/
abbrev TDist : Type := Nat → Nat → ℚ

/-- The inner minimum scan of the non-hosting branch:
`min_distance = inf; for potential_host in host_teams_by_course[course]:
if distance < min_distance: ...`.  `none` plays the role of the initial
`inf` and occurs exactly for an empty host list. -/
def pickHost (dist : TDist) (cur : Team) (hs : List Team) : Option (Team × ℚ) :=
  hs.foldl (fun best h =>
    let d := dist cur.id h.id
    match best with
    | some (_, bd) => if d < bd then some (h, d) else best
    | none => some (h, d)) none

/-- The loop state of the per-team route computation: `current_location`,
`hosts` and `distances`. -/
structure RouteState : Type where
  currentLocation : Team
  hosts : CourseMap (Option Team)
  distances : CourseMap ℚ
deriving DecidableEq

/-- One iteration of `for course in courses:` in the route computation.
Hosting branch: leg is the distance from the current location home, `0` when
already home.  Non-hosting branch: pick the host minimising the distance from
the current location.  (The Python fallback for an empty host list indexes
`host_teams_by_course[course][0]` and would raise `IndexError`; the `none`
branch below is unreachable whenever every course has a host.) -/
def routeCourseStep (dist : TDist) (team : Team) (myCourse : Course)
    (hostsBy : Course → List Team) (st : RouteState) (course : Course) :
    RouteState :=
  if course = myCourse then
    let d : ℚ := if st.currentLocation.id ≠ team.id
      then dist st.currentLocation.id team.id else 0
    { currentLocation := team
      hosts := st.hosts.set course none
      distances := st.distances.set course d }
  else
    match pickHost dist st.currentLocation (hostsBy course) with
    | some (h, d) =>
      { currentLocation := h
        hosts := st.hosts.set course (some h)
        distances := st.distances.set course d }
    | none => st

/-- The route of one team across the three courses, starting from its home. -/
def routeStates (dist : TDist) (hostsBy : Course → List Team) (team : Team)
    (myCourse : Course) : RouteState :=
  coursesList.foldl (routeCourseStep dist team myCourse hostsBy)
    { currentLocation := team
      hosts := CourseMap.const none
      distances := CourseMap.const 0 }

/-- The solution assignment built for one team in phase C
(`team_total_distance = sum(distances.values())`). -/
def routeForTeam (dist : TDist) (hostsBy : Course → List Team) (team : Team)
    (myCourse : Course) : SAssign :=
  let st := routeStates dist hostsBy team myCourse
  { team := team
    hosts := st.hosts
    courseHosted := myCourse
    distances := st.distances
    totalDistance := st.distances.appetizer + st.distances.mainCourse +
      st.distances.dessert }

/-- The route state after a prefix of the course list (used to name the
"previous course location" of each leg). -/
def rsPrefix (dist : TDist) (hostsBy : Course → List Team) (team : Team)
    (myCourse : Course) (cs : List Course) : RouteState :=
  cs.foldl (routeCourseStep dist team myCourse hostsBy)
    { currentLocation := team
      hosts := CourseMap.const none
      distances := CourseMap.const 0 }

/-- The per-course leg property of the route re-threading phase: measured
from the previous course's location `pre`, the hosting leg goes home (0 when
already home) and the non-hosting leg goes to a host of the course of
minimal distance from `pre`. -/
def legSpecHolds (dist : TDist) (hostsBy : Course → List Team) (g : Team)
    (myCourse : Course) (pre : RouteState) (A : SAssign) (c : Course) : Prop :=
  (c = myCourse → A.hosts.get c = none ∧
    A.distances.get c =
      (if pre.currentLocation.id ≠ g.id
       then dist pre.currentLocation.id g.id else 0)) ∧
  (¬ c = myCourse → ∃ h, A.hosts.get c = some h ∧ h ∈ hostsBy c ∧
    A.distances.get c = dist pre.currentLocation.id h.id ∧
    ∀ h2 ∈ hostsBy c,
      dist pre.currentLocation.id h.id ≤ dist pre.currentLocation.id h2.id)

/-! ### Phase B — diversity-weighted guest assignment
(`_optimize_team_diversity`, lines 664–781) -/

/-- `team_meetings`: dict from sorted team-id pairs to meeting counts,
default `0`. -/
abbrev Meet : Type := Nat × Nat → Nat

/-- `tuple(sorted([a, b]))`. -/
def pairKey (a b : Nat) : Nat × Nat := (min a b, max a b)

/-- The `diversity_penalty` accumulation loop: for each existing guest of the
host it adds `meetings(guest, existing_guest) * 1000` and then also
`meetings(guest, host) * 1000` — so the host term is added once per existing
guest, not once. -/
def diversityPenalty (meetings : Meet) (g h : Team) (existing : List Team) : ℚ :=
  existing.foldl (fun acc eg =>
    acc + (meetings (pairKey g.id eg.id) : ℚ) * 1000
        + (meetings (pairKey g.id h.id) : ℚ) * 1000) 0

/-- `total_score = diversity_penalty + distance_score` with
`distance_score = self.distances.get((guest, host), 0) * 1`. -/
def codeSelectionScore (dist : TDist) (meetings : Meet) (g h : Team)
    (existing : List Team) : ℚ :=
  diversityPenalty meetings g h existing + dist g.id h.id * 1

/-- The spec's scoring formula, for comparison with `codeSelectionScore`
(spec §4.5 Phase B): `score(guest, host) = 1000 · meetings(guest,
existing_guests_and_host) + 1 · km(guest, host)` where `meetings(a, B)` counts
encounters between `a` and the set `B ∪ {host}` — the host counted once. -/
def specSelectionScore (dist : TDist) (meetings : Meet) (g h : Team)
    (existing : List Team) : ℚ :=
  1000 * ((existing.map (fun eg => (meetings (pairKey g.id eg.id) : ℚ))).sum
    + (meetings (pairKey g.id h.id) : ℚ)) + 1 * dist g.id h.id

/-- The per-guest host scan: skip hosts already at their target
(`guests_per_host_target` plus one for the first `extra_guests` hosts by
`host_teams.index`), otherwise keep the first host of strictly minimal
score. -/
def chooseHost (dist : TDist) (meetings : Meet) (gph : Nat → List Team)
    (base extra : Nat) (hostTeams : List Team) (g : Team) :
    Option (Team × ℚ) :=
  hostTeams.enum.foldl (fun best ih =>
    let idx := ih.1
    let h := ih.2
    let target := base + (if idx < extra then 1 else 0)
    if (gph h.id).length ≥ target then best
    else
      let sc := codeSelectionScore dist meetings g h (gph h.id)
      match best with
      | some (_, bs) => if sc < bs then some (h, sc) else best
      | none => some (h, sc)) none

/-- `team_meetings[pair_key] = team_meetings.get(pair_key, 0) + 1`. -/
def bumpMeet (m : Meet) (k : Nat × Nat) : Meet :=
  fun k' => if k' = k then m k' + 1 else m k'

/-- The pair-counter update after a placement: one bump per other guest now at
the host, then one bump for the guest/host pair. -/
def updateMeetings (m : Meet) (g h : Team) (newGuests : List Team) : Meet :=
  let m1 := newGuests.foldl (fun acc eg =>
    if eg.id ≠ g.id then bumpMeet acc (pairKey g.id eg.id) else acc) m
  bumpMeet m1 (pairKey g.id h.id)

/-- Placement of one guest (`if best_host: append; update meeting tracker`). -/
def placeGuest (dist : TDist) (base extra : Nat) (hostTeams : List Team)
    (st : (Nat → List Team) × Meet) (g : Team) : (Nat → List Team) × Meet :=
  match chooseHost dist st.2 st.1 base extra hostTeams g with
  | none => st
  | some (h, _) =>
    let gph2 : Nat → List Team := fun i => if i = h.id then st.1 i ++ [g] else st.1 i
    (gph2, updateMeetings st.2 g h (gph2 h.id))

/-- `_optimize_team_diversity`: per course, the non-hosts are shuffled
(`random.shuffle(guest_teams_copy)`, modelled by the `shuffle` parameter —
the source draws from the process-global unseeded RNG) and placed greedily.
Returns `guests_per_host` and `team_meetings`. -/
def optimizeTeamDiversity (dist : TDist) (teams : List Team)
    (hostsBy : Course → List Team) (hostingMap : Nat → Course)
    (shuffle : Course → List Team → List Team) : (Nat → List Team) × Meet :=
  coursesList.foldl (fun st course =>
    let hostTeams := hostsBy course
    let guestTeams := teams.filter (fun t => decide (¬ hostingMap t.id = course))
    let base := guestTeams.length / hostTeams.length
    let extra := guestTeams.length % hostTeams.length
    (shuffle course guestTeams).foldl (placeGuest dist base extra hostTeams) st)
    (fun _ => [], fun _ => 0)

/-! ### Kitchen allocator (`assign_guest_kitchens`, lines 783–1000)

`self.guest_kitchen_distances` is a dict read with
`.get((team_id, kitchen_id), float('inf'))`; `none` below stands for a missing
entry, i.e. the `inf` default. -/

/-- `self.guest_kitchen_distances` (team id, kitchen id). -/
abbrev KDist : Type := Nat → Nat → Option ℚ

/-- `kitchen_usage[kitchen.id] += 1`. -/
def bumpUsage (u : Nat → Nat) (i : Nat) : Nat → Nat :=
  fun j => if j = i then u j + 1 else u j

/-- The mandatory-pass scan for one team: skip kitchens at capacity
(`kitchen_usage >= max_teams`), keep the first kitchen of strictly minimal
distance; a missing distance (`inf`) never beats the running minimum. -/
def findBestKitchen (kdist : KDist) (usage : Nat → Nat) (avail : List Kitchen)
    (t : Team) : Option (Kitchen × ℚ) :=
  avail.foldl (fun best k =>
    if usage k.id ≥ k.maxTeams then best
    else
      match kdist t.id k.id with
      | some d =>
        match best with
        | some (_, bd) => if d < bd then some (k, d) else best
        | none => some (k, d)
      | none => best) none

/-- The mandatory per-team loop for one course: each team without a kitchen
gets the best available kitchen or the run fails
(`raise ValueError("KRITISCHER FEHLER: Keine Gastküche ... (alle belegt)!")`);
on success the usage counter of the chosen kitchen is incremented. -/
def assignMandatoryTeams (kdist : KDist) (avail : List Kitchen) :
    List Team → (Nat → Nat) →
    Except OptError (List (Team × Kitchen × ℚ) × (Nat → Nat))
| [], u => .ok ([], u)
| t :: ts, u =>
  match findBestKitchen kdist u avail t with
  | none => .error .kitchenUnavailable
  | some (k, d) =>
    match assignMandatoryTeams kdist avail ts (bumpUsage u k.id) with
    | .ok (rest, u2) => .ok ((t, k, d) :: rest, u2)
    | .error e => .error e

/-- The mandatory pass for one course (`SCHRITT 1`): collect the hosting teams
with `needs_guest_kitchen`, fail if no kitchen allows the course
(`raise ValueError("... keine Gastküchen verfügbar!")`), then assign each team.
`usage0` is the database count of active assignments for the course. -/
def mandatoryCourse (kdist : KDist) (kitchens : List Kitchen)
    (usage0 : Nat → Nat) (assigns : List SAssign) (course : Course) :
    Except OptError (List (Team × Kitchen × ℚ)) :=
  let mand := assigns.filter (fun a =>
    decide (a.courseHosted = course) && a.team.needsGuestKitchen)
  if mand.isEmpty then .ok []
  else
    let avail := kitchens.filter (fun k => k.canHostCourse course)
    if avail.isEmpty then .error .kitchenUnavailable
    else
      match assignMandatoryTeams kdist avail (mand.map (fun a => a.team)) usage0 with
      | .ok (cr, _) => .ok cr
      | .error e => .error e

/-- The mandatory pass over the course list. -/
def mandatoryCourses (kdist : KDist) (kitchens : List Kitchen)
    (usage0 : Course → Nat → Nat) (assigns : List SAssign) :
    List Course → Except OptError (List (Team × Kitchen × Course × ℚ))
| [] => .ok []
| c :: cs =>
  match mandatoryCourse kdist kitchens (usage0 c) assigns c with
  | .error e => .error e
  | .ok cr =>
    match mandatoryCourses kdist kitchens usage0 assigns cs with
    | .error e => .error e
    | .ok rest => .ok (cr.map (fun x => (x.1, x.2.1, c, x.2.2)) ++ rest)

/-- `assign_guest_kitchens`, `SCHRITT 1` (mandatory assignments): the created
`TeamGuestKitchenAssignment` rows, or the error that aborts the run. -/
def assignGuestKitchensMandatory (kdist : KDist) (kitchens : List Kitchen)
    (usage0 : Course → Nat → Nat) (assigns : List SAssign) :
    Except OptError (List (Team × Kitchen × Course × ℚ)) :=
  mandatoryCourses kdist kitchens usage0 assigns coursesList

/-- The opportunistic scan for one guest (`SCHRITT 2`): among kitchens with
remaining capacity, keep the first kitchen of strictly maximal savings
`original_distance - team_to_kitchen`, subject to `savings >= 3.0`;
`best_savings` starts at `0`. -/
def bestOpportunisticKitchen (kdist : KDist) (usage : Nat → Nat)
    (avail : List Kitchen) (t : Team) (orig : ℚ) : Option (Kitchen × ℚ) :=
  avail.foldl (fun best k =>
    if usage k.id ≥ k.maxTeams then best
    else
      match kdist t.id k.id with
      | some d =>
        let sav := orig - d
        let bs : ℚ := match best with | some (_, b) => b | none => 0
        if sav > bs ∧ sav ≥ 3 then some (k, sav) else best
      | none => best) none

/-- One guest visit of the opportunistic pass: skip hosting teams and visits
without a host; `original_distance` is `self.distances[(team, host)]` (the
home-to-host distance, not the stored leg).  On success only
`assignment['guest_kitchen_usage'][course]` is written — the stored
`distances` and `total_distance` are left untouched. -/
def oppCourseStep (dist : TDist) (kdist : KDist) (avail : List Kitchen)
    (course : Course) (st : List SAssign × (Nat → Nat)) (a : SAssign) :
    List SAssign × (Nat → Nat) :=
  if a.courseHosted = course then (st.1 ++ [a], st.2)
  else
    match a.hosts.get course with
    | none => (st.1 ++ [a], st.2)
    | some host =>
      let orig := dist a.team.id host.id
      match bestOpportunisticKitchen kdist st.2 avail a.team orig with
      | none => (st.1 ++ [a], st.2)
      | some kv =>
        (st.1 ++ [{ a with guestKitchenUsage :=
            (a.guestKitchenUsage.set course
              (some { kitchen := kv.1, distanceSavings := kv.2,
                      originalHost := host })) }],
         bumpUsage st.2 kv.1.id)

/-- The opportunistic pass for one course: available kitchens are those
allowing the course with `current_usage < max_teams`. -/
def opportunisticCourse (dist : TDist) (kdist : KDist) (kitchens : List Kitchen)
    (usage0 : Nat → Nat) (course : Course) (assigns : List SAssign) :
    List SAssign :=
  let avail := kitchens.filter (fun k =>
    k.canHostCourse course && decide (usage0 k.id < k.maxTeams))
  if avail.isEmpty then assigns
  else (assigns.foldl (oppCourseStep dist kdist avail course) ([], usage0)).1

/-- `assign_guest_kitchens`, `SCHRITT 2` (opportunistic assignments), over the
course list; `usage0` is the per-course database count after the mandatory
pass. -/
def assignGuestKitchensOpportunistic (dist : TDist) (kdist : KDist)
    (kitchens : List Kitchen) (usage0 : Course → Nat → Nat)
    (assigns : List SAssign) : List SAssign :=
  coursesList.foldl (fun acc c =>
    opportunisticCourse dist kdist kitchens (usage0 c) c acc) assigns

/-! ### Phase D — local improvement (`improve_guest_distribution`,
lines 1002–1127) -/

/-- The mutable state of the improvement loop: `improved_assignments` and
`guests_per_host`. -/
structure ImpState : Type where
  assignments : List SAssign
  gph : Nat → List Team

/-- The guest scan for a host pair: `best_improvement = 0`, keep the first
guest whose `distances[(guest, overloaded)] - distances[(guest, underloaded)]`
is strictly larger than the running best. -/
def findGuestToMove (dist : TDist) (gph : Nat → List Team) (O U : Team) :
    Option (Team × ℚ) :=
  (gph O.id).foldl (fun best g =>
    let imp := dist g.id O.id - dist g.id U.id
    match best with
    | some (_, bi) => if imp > bi then some (g, imp) else best
    | none => if imp > 0 then some (g, imp) else best) none

/-- `for assignment in improved_assignments: if assignment['team'].id == ...:
mutate; break` — only the first matching record is updated. -/
def updateFirstAssign : List SAssign → Nat → (SAssign → SAssign) → List SAssign
| [], _, _ => []
| a :: rest, gid, f =>
  if a.team.id = gid then f a :: rest else a :: updateFirstAssign rest gid f

/-- The value the Python variable `new_distance` holds once the guest scan
finishes: the `for guest_team in current_guests` loop has no `break`, so
after it `new_distance` is the home-to-underloaded distance of the LAST
guest examined, not of the chosen guest. -/
def staleNewDistance (dist : TDist) (gph : Nat → List Team) (O U : Team) : ℚ :=
  match (gph O.id).getLast? with
  | some lg => dist lg.id U.id
  | none => 0

/-- Applying the chosen move: remove the guest from the overloaded host's
list, append it to the underloaded host's list, set the stored leg to the
apply-time value of `new_distance` (the stale last-scanned value, passed in
by the caller) and shift the total by `new_distance - old_distance` where
`old_distance` is the previously stored leg. -/
def applyMove (course : Course) (O U g : Team) (newDistance : ℚ)
    (st : ImpState) : ImpState :=
  { assignments := updateFirstAssign st.assignments g.id (fun a =>
      let oldD := a.distances.get course
      { a with hosts := a.hosts.set course (some U)
               distances := a.distances.set course newDistance
               totalDistance := a.totalDistance + (newDistance - oldD) })
    gph := fun i =>
      if i = O.id then (st.gph i).erase g
      else if i = U.id then st.gph i ++ [g]
      else st.gph i }

/-- The inner `for underloaded_host ...` loop for a fixed overloaded host:
apply the first qualifying move (`best_improvement > 0.1`) and break, else
keep scanning; `none` means the loop finished without applying a move. -/
def pairLoopInner (dist : TDist) (course : Course) (O : Team) :
    List Team → ImpState → Option ImpState
| [], _ => none
| U :: us, st =>
  match findGuestToMove dist st.gph O U with
  | some gi =>
    if gi.2 > 1/10 then
      some (applyMove course O U gi.1 (staleNewDistance dist st.gph O U) st)
    else pairLoopInner dist course O us st
  | none => pairLoopInner dist course O us st

/-- The outer `for overloaded_host ...` loop.  After the inner loop the code
checks the pass-wide `improvement_found` flag: once it is `true` (possibly
from an earlier course of the same pass) the outer loop breaks after the
first overloaded host. -/
def pairLoopOuter (dist : TDist) (course : Course) (us : List Team) :
    List Team → ImpState → Bool → ImpState × Bool
| [], st, found => (st, found)
| O :: os, st, found =>
  match pairLoopInner dist course O us st with
  | some st2 => (st2, true)
  | none =>
    if found then (st, found)
    else pairLoopOuter dist course us os st found

/-- One course of one pass: skip courses with fewer than two hosts, compute
`ideal_guests = total_guests_for_course / len(hosts)`, split hosts into
overloaded (`count > ideal + 0.5`) and underloaded (`count < ideal - 0.5`)
and run the move loops. -/
def courseImprove (dist : TDist) (hostsBy : Course → List Team)
    (teams : List Team) (acc : ImpState × Bool) (course : Course) :
    ImpState × Bool :=
  let st := acc.1
  let hostsIn := hostsBy course
  if hostsIn.length < 2 then acc
  else
    let totalGuests := (teams.filter (fun t =>
      st.assignments.any (fun a => decide (a.team.id = t.id) &&
        decide (¬ a.courseHosted = course) && (a.hosts.get course).isSome))).length
    let ideal : ℚ := (totalGuests : ℚ) / (hostsIn.length : ℚ)
    let overloaded := hostsIn.filter (fun h =>
      decide (((st.gph h.id).length : ℚ) > ideal + 1/2))
    let underloaded := hostsIn.filter (fun h =>
      decide (((st.gph h.id).length : ℚ) < ideal - 1/2))
    pairLoopOuter dist course underloaded overloaded st acc.2

/-- One full pass over the three courses, starting with
`improvement_found = False`. -/
def improvePass (dist : TDist) (hostsBy : Course → List Team)
    (teams : List Team) (st : ImpState) : ImpState × Bool :=
  coursesList.foldl (courseImprove dist hostsBy teams) (st, false)

/-- `for iteration in range(max_iterations): ...; if not improvement_found:
break`. -/
def improveLoop (dist : TDist) (hostsBy : Course → List Team)
    (teams : List Team) : Nat → ImpState → ImpState
| 0, st => st
| n + 1, st =>
  let pr := improvePass dist hostsBy teams st
  if pr.2 then improveLoop dist hostsBy teams n pr.1 else pr.1

/-- `improve_guest_distribution` without the trailing after-party splice:
run up to `max_iterations` passes (`getattr(self, 'max_iterations', 3)`) and
recompute `objective_value` as the sum of the per-team totals. -/
def improveGuestDistribution (dist : TDist) (hostsBy : Course → List Team)
    (teams : List Team) (sol : Solution) (gph : Nat → List Team)
    (maxIter : Nat := 3) : Solution :=
  let st := improveLoop dist hostsBy teams maxIter ⟨sol.assignments, gph⟩
  { sol with
    assignments := st.assignments
    objectiveValue := (st.assignments.map (fun a => a.totalDistance)).sum }

/-- The number of passes `improveLoop` executes for a given fuel (a
measurement used to state the iteration bound; not part of the source). -/
def passCount (dist : TDist) (hostsBy : Course → List Team)
    (teams : List Team) : Nat → ImpState → Nat
| 0, _ => 0
| n + 1, st =>
  let pr := improvePass dist hostsBy teams st
  if pr.2 then passCount dist hostsBy teams n pr.1 + 1 else 1

/-! ### After-party extender (`add_afterparty_routes`, lines 1129–1215) -/

/-- `self.after_party_distances`, keyed by team id or `'kitchen_<id>'`, read
with `.get(last_location_id, 0)`. -/
abbrev APDist : Type := LocId → Option ℚ

/-- The last location of a team: its own home when it hosts dessert, else the
dessert host (falling back to its home), overridden by the guest kitchen used
at dessert when one was recorded. -/
def lastLocation (a : SAssign) : LocId :=
  let base : LocId :=
    if a.courseHosted = .dessert then .team a.team.id
    else
      match a.hosts.get .dessert with
      | some h => .team h.id
      | none => .team a.team.id
  match a.guestKitchenUsage.get .dessert with
  | some ku => .kitchen ku.kitchen.id
  | none => base

/-- One iteration of the `for assignment in solution['assignments']` loop of
`add_afterparty_routes`: look up the distance from the team's last location
(default `0`); when positive, record the after-party route and add the leg to
the team total, also accumulating `total_afterparty_distance` and
`teams_with_routes`. -/
def apStep (apDist : APDist) (acc : List SAssign × ℚ × Nat) (a : SAssign) :
    List SAssign × ℚ × Nat :=
  let loc := lastLocation a
  let d := (apDist loc).getD 0
  if d > 0 then
    let a2 : SAssign :=
      { a with afterpartyRoute := some (loc, d)
               totalDistance := a.totalDistance + d }
    (acc.1 ++ [a2], acc.2.1 + d, acc.2.2 + 1)
  else (acc.1 ++ [a], acc.2.1, acc.2.2)

/-- `add_afterparty_routes`: run `apStep` over the assignments, add the sum
of the added legs to `objective_value` and, when at least one route was
added, emit `afterparty_stats` with `teams_count = teams_with_routes`. -/
def addAfterpartyRoutes (apDist : APDist) (sol : Solution) : Solution :=
  let r := sol.assignments.foldl (apStep apDist) ([], 0, 0)
  { assignments := r.1
    objectiveValue := sol.objectiveValue + r.2.1
    afterpartyStats :=
      if r.2.2 > 0 then
        some { totalDistance := r.2.1
               averageDistance := r.2.1 / (r.2.2 : ℚ)
               teamsCount := r.2.2 }
      else sol.afterpartyStats }

/-! ### Route oracle and distance matrix (`events/routing.py`) -/

/-- A coordinate pair `(lat, lng)`. -/
abbrev Coord : Type := ℚ × ℚ

/-- The partial distance dict built by `calculate_team_distances`. -/
abbrev DistMap : Type := (Nat × Nat) → Option ℚ

/-- `distances[key] = value`. -/
def DistMap.insert (m : DistMap) (k : Nat × Nat) (v : ℚ) : DistMap :=
  fun k2 => if k2 = k then some v else m k2

/-- One iteration of the nested `for i, team1 / for j, team2` loop of
`calculate_team_distances` (lines 257–286).  `oracle` is
`calculate_walking_distance` (`none` = returned `None`); a returned `0.0` is
falsy in `if distance:` and also falls to the `2.5` fallback; missing
coordinates fall to the `3.0` fallback. -/
def tdStep (oracle : Coord → Coord → Option ℚ) (coords : Nat → Option Coord)
    (m : DistMap) (p : (Nat × Nat) × (Nat × Nat)) : DistMap :=
  let i := p.1.1
  let t1 := p.1.2
  let j := p.2.1
  let t2 := p.2.2
  if i = j then m.insert (t1, t2) 0
  else
    match m (t2, t1) with
    | some v => m.insert (t1, t2) v
    | none =>
      match coords t1, coords t2 with
      | some c1, some c2 =>
        match oracle c1 c2 with
        | some d =>
          if d ≠ 0 then (m.insert (t1, t2) d).insert (t2, t1) d
          else (m.insert (t1, t2) (5/2)).insert (t2, t1) (5/2)
        | none => (m.insert (t1, t2) (5/2)).insert (t2, t1) (5/2)
      | _, _ => (m.insert (t1, t2) 3).insert (t2, t1) 3

/-- The enumerated index pairs of the nested loop, in iteration order. -/
def enumPairs (teams : List Nat) : List ((Nat × Nat) × (Nat × Nat)) :=
  teams.enum.flatMap (fun a => teams.enum.map (fun b => (a, b)))

/-- `RouteCalculator.calculate_team_distances` over the team ids, with
`coords` standing for the `team_coords` dict. -/
def calculateTeamDistances (oracle : Coord → Coord → Option ℚ)
    (coords : Nat → Option Coord) (teams : List Nat) : DistMap :=
  (enumPairs teams).foldl (tdStep oracle coords) (fun _ => none)

/-- One iteration of the validation loop of
`RunningDinnerOptimizer.calculate_distances` (lines 209–216): fill any
missing ordered pair with the `2.5` fallback. -/
def cdPatchStep (m : DistMap) (p : Nat × Nat) : DistMap :=
  match m p with
  | some _ => m
  | none => m.insert p (5/2)

/-- The full validation loop over all ordered team pairs. -/
def cdPatch (m : DistMap) (teams : List Nat) : DistMap :=
  (teams.flatMap (fun a => teams.map (fun b => (a, b)))).foldl cdPatchStep m

/-! ### Distance cache (`calculate_walking_distance`, lines 130–204) -/

/-- The quantisation used by the cache key
`f"route_{lat:.4f}_{lng:.4f}_..."`: four decimal digits (rounding to the
nearest multiple of `10⁻⁴`, ties upward). -/
def quant4 (x : ℚ) : ℤ := (x * 10000 + 1/2).floor

/-- Seven-decimal-digit quantisation, as the spec describes. -/
def quant7 (x : ℚ) : ℤ := (x * 10000000 + 1/2).floor

/-- The cache key of a `(src, dst)` coordinate pair. -/
def cacheKey (src dst : Coord) : ℤ × ℤ × ℤ × ℤ :=
  (quant4 src.1, quant4 src.2, quant4 dst.1, quant4 dst.2)

/-- The Django cache holding route distances. -/
abbrev RouteCache : Type := (ℤ × ℤ × ℤ × ℤ) → Option ℚ

/-- `calculate_walking_distance`: a cached value is returned if truthy
(`if cached_distance:` — a cached `0.0` is treated as a miss); otherwise the
API chain is tried (`api`, covering OpenRouteService then OSRM) and a
successful result is cached; when both APIs fail the haversine × 1.4 fallback
is returned WITHOUT being cached.  The returned `Bool` records whether an
upstream request happened. -/
def calculateWalkingDistance (api : Coord → Coord → Option ℚ)
    (hav : Coord → Coord → ℚ) (cache : RouteCache) (src dst : Coord) :
    ℚ × RouteCache × Bool :=
  let key := cacheKey src dst
  let hit : Option ℚ :=
    match cache key with
    | some d => if d ≠ 0 then some d else none
    | none => none
  match hit with
  | some d => (d, cache, false)
  | none =>
    match api src dst with
    | some d => (d, fun k => if k = key then some d else cache k, true)
    | none => (hav src dst * (14/10), cache, true)

/-! ## Scan combinators

The optimizer contains five `for`-loop scans of the shape
`best = None/inf/0; for k in l: if better: best = k`.  Each is proved equal to
one of the two combinators below, about which the selection lemmas are proved
once. -/

/-- One step of a first-strict-minimum scan over eligible keys with an
optional score. -/
def bestMinStep {κ : Type} (elig : κ → Bool) (score : κ → Option ℚ)
    (best : Option (κ × ℚ)) (k : κ) : Option (κ × ℚ) :=
  if elig k then
    match score k with
    | some d =>
      match best with
      | some p => if d < p.2 then some (k, d) else best
      | none => some (k, d)
    | none => best
  else best

/-- First-strict-minimum scan (`best = None; if d < best_d: update`). -/
def bestMinScan {κ : Type} (elig : κ → Bool) (score : κ → Option ℚ)
    (l : List κ) : Option (κ × ℚ) :=
  l.foldl (bestMinStep elig score) none

/-- One step of a first-strict-maximum scan with baseline `0` and an
admissibility condition on the value. -/
def bestMaxStep {κ : Type} (elig : κ → Bool) (score : κ → Option ℚ)
    (ok : ℚ → Prop) [DecidablePred ok] (best : Option (κ × ℚ)) (k : κ) :
    Option (κ × ℚ) :=
  if elig k then
    match score k with
    | some v =>
      let bs : ℚ := match best with | some p => p.2 | none => 0
      if bs < v ∧ ok v then some (k, v) else best
    | none => best
  else best

/-- First-strict-maximum scan (`best = None, best_val = 0; if v > best_val
and ok v: update`). -/
def bestMaxScan {κ : Type} (elig : κ → Bool) (score : κ → Option ℚ)
    (ok : ℚ → Prop) [DecidablePred ok] (l : List κ) : Option (κ × ℚ) :=
  l.foldl (bestMaxStep elig score ok) none

/-- The step-by-step account of the mandatory per-team kitchen loop: each
team without a kitchen is served by `findBestKitchen` against the usage
counters as they stood at its turn, after which the chosen kitchen's counter
is bumped. -/
inductive MandSteps (kdist : KDist) (avail : List Kitchen) :
    (Nat → Nat) → List Team → List (Team × Kitchen × ℚ) → (Nat → Nat) → Prop
| nil (u : Nat → Nat) : MandSteps kdist avail u [] [] u
| cons (u : Nat → Nat) (t : Team) (k : Kitchen) (d : ℚ) (ts : List Team)
    (rest : List (Team × Kitchen × ℚ)) (u2 : Nat → Nat) :
    findBestKitchen kdist u avail t = some (k, d) →
    MandSteps kdist avail (bumpUsage u k.id) ts rest u2 →
    MandSteps kdist avail u (t :: ts) ((t, k, d) :: rest) u2

/-- Two solution assignments that agree on everything the opportunistic
kitchen pass is not allowed to touch. -/
def SameRoute (a b : SAssign) : Prop :=
  b.team = a.team ∧ b.hosts = a.hosts ∧ b.courseHosted = a.courseHosted ∧
  b.distances = a.distances ∧ b.totalDistance = a.totalDistance ∧
  b.afterpartyRoute = a.afterpartyRoute

/-! ## Concrete fixtures used by counterexamples and witnesses -/

/-- A team with id 1. -/
def exTeamA : Team := { id := 1 }

/-- A prior `TeamAssignment` row belonging to run 0. -/
def exPriorAssignRow : TARec :=
  { runId := 0, team := exTeamA, course := .appetizer,
    hosts := CourseMap.const none, distances := CourseMap.const 0,
    totalDistance := 0 }

/-- An event that already has a completed run with one stored assignment. -/
def exPriorState : DbState :=
  { eventStatus := .optimized
    runs := [{ runId := 0, status := .completed }]
    assignments := [exPriorAssignRow] }

/-- A one-team solution whose team hosted dessert. -/
def exApSol : Solution :=
  { assignments := [{ team := exTeamA
                      hosts := CourseMap.const none
                      courseHosted := .dessert
                      distances := CourseMap.const 0
                      totalDistance := 5 }]
    objectiveValue := 5 }

/-- After-party distances: 2 km from team 1's home. -/
def exApDist : APDist := fun l => if l = .team 1 then some 2 else none

/-- A host team with id 2. -/
def exHostT : Team := { id := 2 }

/-- A kitchen with id 5, capacity 1, allowing all courses. -/
def exKitchen1 : Kitchen := { id := 5, maxTeams := 1 }

/-- Team 1 lives 10 km from team 2. -/
def exOppDist : TDist := fun i j => if i = 1 ∧ j = 2 then 10 else 0

/-- Team 1 is 1 km from kitchen 5. -/
def exOppKDist : KDist := fun t k => if t = 1 ∧ k = 5 then some 1 else none

/-- A guest visit: team 1 visits team 2 for appetizer with a stored leg of
10 km (its per-team total). -/
def exOppAssign : SAssign :=
  { team := exTeamA
    hosts := (CourseMap.const none).set .appetizer (some exHostT)
    courseHosted := .mainCourse
    distances := (CourseMap.const 0).set .appetizer 10
    totalDistance := 10 }

/-- The opportunistic kitchen pass applied to the single guest visit. -/
def exOppRes : List SAssign :=
  assignGuestKitchensOpportunistic exOppDist exOppKDist [exKitchen1]
    (fun _ _ => 0) [exOppAssign]

/-- Appetizer host A, id 10. -/
def exDivA : Team := { id := 10 }

/-- Appetizer host B, id 11. -/
def exDivB : Team := { id := 11 }

/-- Guest team 1 (hosts main course). -/
def exDivG1 : Team := { id := 1 }

/-- Guest team 2 (hosts dessert). -/
def exDivG2 : Team := { id := 2 }

/-- Four confirmed teams in load order. -/
def exDivTeams : List Team := [exDivA, exDivB, exDivG1, exDivG2]

/-- Hosts per course of the fixture. -/
def exDivHostsBy : Course → List Team
| .appetizer => [exDivA, exDivB]
| .mainCourse => [exDivG1]
| .dessert => [exDivG2]

/-- `team_hosting_map` of the fixture. -/
def exDivHosting : Nat → Course := fun i =>
  if i = 10 ∨ i = 11 then .appetizer
  else if i = 1 then .mainCourse
  else .dessert

/-- Both guests are nearer host A (1 km) than host B (2 km). -/
def exDivDist : TDist := fun i j =>
  if (i = 1 ∧ j = 10) ∨ (i = 10 ∧ j = 1) then 1
  else if (i = 1 ∧ j = 11) ∨ (i = 11 ∧ j = 1) then 2
  else if (i = 2 ∧ j = 10) ∨ (i = 10 ∧ j = 2) then 1
  else if (i = 2 ∧ j = 11) ∨ (i = 11 ∧ j = 2) then 2
  else 1

/-- The RNG draw that leaves every guest list as loaded. -/
def exShuffleId : Course → List Team → List Team := fun _ l => l

/-- The RNG draw that reverses every guest list. -/
def exShuffleRev : Course → List Team → List Team := fun _ l => l.reverse

/-- Meetings fixture: guest 1 and host 10 have met once before. -/
def exScMeet : Meet := fun k => if k = pairKey 1 10 then 1 else 0

/-- Distance fixture: guest 1 is 1 km from host 10 and 500 km from host 11. -/
def exScDist : TDist := fun i j =>
  if i = 1 ∧ j = 10 then 1 else if i = 1 ∧ j = 11 then 500 else 0

/-- A distance oracle that always answers 1 km. -/
def exApi : Coord → Coord → Option ℚ := fun _ _ => some 1

/-- A haversine stub (never reached in the witnesses). -/
def exHav : Coord → Coord → ℚ := fun _ _ => 0

/-- An empty route cache. -/
def exCacheEmpty : RouteCache := fun _ => none

/-- `0.12344999` — rounds to `0.1234500` at 7 digits and `0.1234` at 4. -/
def exCoordP : Coord := (12344999/100000000, 0)

/-- `0.12345001` — rounds to `0.1234500` at 7 digits and `0.1235` at 4. -/
def exCoordQ : Coord := (12345001/100000000, 0)

/-- The origin coordinate. -/
def exCoordO : Coord := (0, 0)

/-- First distance call, populating the cache for `exCoordP`. -/
def exCall1 : ℚ × RouteCache × Bool :=
  calculateWalkingDistance exApi exHav exCacheEmpty exCoordP exCoordO

/-- Second distance call, with coordinates equal to the first after 7-digit
rounding, against the cache left by the first call. -/
def exCall2 : ℚ × RouteCache × Bool :=
  calculateWalkingDistance exApi exHav exCall1.2.1 exCoordQ exCoordO

/-- Phase-D distance fixture: guest 1's home is 5 km from host A (id 10) and
1 km from host B (id 11); guest 2 is 0.75 km from host B; every other
home-to-host distance is 1 km. -/
def exImpDist : TDist := fun i j =>
  if i = 1 ∧ j = 10 then 5 else if i = 2 ∧ j = 11 then 3/4 else 1

/-- Guest 1 before Phase D: guesting the appetizer at host A with stored
re-threaded leg `0.5` (the route arrives from a previous stop, not from
home), total `0.5`. -/
def exImpAssignG : SAssign :=
  { team := exDivG1
    hosts := (CourseMap.const none).set .appetizer (some exDivA)
    courseHosted := .mainCourse
    distances := (CourseMap.const 0).set .appetizer (1/2)
    totalDistance := 1/2 }

/-- Guest 2 before Phase D: also guesting the appetizer at host A. -/
def exImpAssignG2 : SAssign :=
  { team := exDivG2
    hosts := (CourseMap.const none).set .appetizer (some exDivA)
    courseHosted := .dessert
    distances := (CourseMap.const 0).set .appetizer 1
    totalDistance := 1 }

/-- Appetizer host A's record (hosts, guests nowhere). -/
def exImpAssignO : SAssign :=
  { team := exDivA
    hosts := CourseMap.const none
    courseHosted := .appetizer
    distances := CourseMap.const 0
    totalDistance := 0 }

/-- Appetizer host B's record (hosts, guests nowhere, no guests yet). -/
def exImpAssignU : SAssign :=
  { team := exDivB
    hosts := CourseMap.const none
    courseHosted := .appetizer
    distances := CourseMap.const 0
    totalDistance := 0 }

/-- The Phase-D input solution. -/
def exImpSol : Solution :=
  { assignments := [exImpAssignG, exImpAssignG2, exImpAssignO, exImpAssignU]
    objectiveValue := 5/2 }

/-- `guests_per_host` before Phase D: both guests sit at host A, none at B. -/
def exImpGph : Nat → List Team := fun i =>
  if i = 10 then [exDivG1, exDivG2] else []

/-- The solution returned by Phase D on the fixture. -/
def exImpRes : Solution :=
  improveGuestDistribution exImpDist exDivHostsBy exDivTeams exImpSol exImpGph

/-- A coordinate table placing every team at the origin. -/
def exC7Coords : Nat → Option Coord := fun _ => some (0, 0)

/-! ## Helper lemmas -/

/-- Starting a min-scan from a recorded best only lowers the value. -/
theorem foldl_bestMinStep_mono {κ : Type} (elig : κ → Bool)
    (score : κ → Option ℚ) (l : List κ) :
    ∀ k0 d0, ∃ k d,
      l.foldl (bestMinStep elig score) (some (k0, d0)) = some (k, d) ∧ d ≤ d0 := by
  induction l with
  | nil => exact fun k0 d0 => ⟨k0, d0, rfl, le_rfl⟩
  | cons a t ih =>
    intro k0 d0
    rw [List.foldl_cons]
    by_cases he : elig a
    · cases hs : score a with
      | none =>
        have hstep : bestMinStep elig score (some (k0, d0)) a = some (k0, d0) := by
          simp [bestMinStep, he, hs]
        rw [hstep]; exact ih k0 d0
      | some d1 =>
        by_cases hlt : d1 < d0
        · have hstep : bestMinStep elig score (some (k0, d0)) a = some (a, d1) := by
            simp [bestMinStep, he, hs, hlt]
          rw [hstep]
          obtain ⟨k, d, hk, hd⟩ := ih a d1
          exact ⟨k, d, hk, hd.trans hlt.le⟩
        · have hstep : bestMinStep elig score (some (k0, d0)) a = some (k0, d0) := by
            simp [bestMinStep, he, hs, hlt]
          rw [hstep]; exact ih k0 d0
    · have hstep : bestMinStep elig score (some (k0, d0)) a = some (k0, d0) := by
        simp [bestMinStep, he]
      rw [hstep]; exact ih k0 d0

/-- Provenance of a min-scan result: it is the initial best or an eligible
list element carrying its own score. -/
theorem foldl_bestMinStep_some {κ : Type} (elig : κ → Bool)
    (score : κ → Option ℚ) (l : List κ) :
    ∀ b k d, l.foldl (bestMinStep elig score) b = some (k, d) →
      b = some (k, d) ∨ (k ∈ l ∧ elig k ∧ score k = some d) := by
  induction l with
  | nil => exact fun b k d h => .inl h
  | cons a t ih =>
    intro b k d h
    rw [List.foldl_cons] at h
    rcases ih _ k d h with hb | hmem
    · by_cases he : elig a
      · cases hs : score a with
        | none =>
          have hstep : bestMinStep elig score b a = b := by simp [bestMinStep, he, hs]
          rw [hstep] at hb; exact .inl hb
        | some d1 =>
          cases b with
          | none =>
            have hstep : bestMinStep elig score none a = some (a, d1) := by
              simp [bestMinStep, he, hs]
            rw [hstep] at hb
            obtain ⟨rfl, rfl⟩ : a = k ∧ d1 = d := by
              constructor <;> injection hb with h1 <;> [exact congrArg Prod.fst h1;
                exact congrArg Prod.snd h1]
            exact .inr ⟨List.mem_cons_self _ _, he, hs⟩
          | some p =>
            by_cases hlt : d1 < p.2
            · have hstep : bestMinStep elig score (some p) a = some (a, d1) := by
                simp [bestMinStep, he, hs, hlt]
              rw [hstep] at hb
              obtain ⟨rfl, rfl⟩ : a = k ∧ d1 = d := by
                constructor <;> injection hb with h1 <;> [exact congrArg Prod.fst h1;
                  exact congrArg Prod.snd h1]
              exact .inr ⟨List.mem_cons_self _ _, he, hs⟩
            · have hstep : bestMinStep elig score (some p) a = some p := by
                simp [bestMinStep, he, hs, hlt]
              rw [hstep] at hb; exact .inl hb
      · have hstep : bestMinStep elig score b a = b := by simp [bestMinStep, he]
        rw [hstep] at hb; exact .inl hb
    · exact .inr ⟨List.mem_cons_of_mem a hmem.1, hmem.2⟩

/-- A min-scan result is at most the score of any eligible scored element. -/
theorem foldl_bestMinStep_le {κ : Type} (elig : κ → Bool)
    (score : κ → Option ℚ) (l : List κ) :
    ∀ b k1, k1 ∈ l → elig k1 → ∀ d1, score k1 = some d1 →
      ∃ k d, l.foldl (bestMinStep elig score) b = some (k, d) ∧ d ≤ d1 := by
  induction l with
  | nil => intro b k1 h; cases h
  | cons a t ih =>
    intro b k1 hmem he1 d1 hs1
    rw [List.foldl_cons]
    rcases List.mem_cons.mp hmem with rfl | hmem2
    · cases b with
      | none =>
        have hstep : bestMinStep elig score none k1 = some (k1, d1) := by
          simp [bestMinStep, he1, hs1]
        rw [hstep]
        exact foldl_bestMinStep_mono elig score t k1 d1
      | some p =>
        by_cases hlt : d1 < p.2
        · have hstep : bestMinStep elig score (some p) k1 = some (k1, d1) := by
            simp [bestMinStep, he1, hs1, hlt]
          rw [hstep]
          exact foldl_bestMinStep_mono elig score t k1 d1
        · have hstep : bestMinStep elig score (some p) k1 = some p := by
            simp [bestMinStep, he1, hs1, hlt]
          rw [hstep]
          obtain ⟨k, d, hk, hd⟩ := foldl_bestMinStep_mono elig score t p.1 p.2
          exact ⟨k, d, hk, hd.trans (not_lt.mp hlt)⟩
    · exact ih (bestMinStep elig score b a) k1 hmem2 he1 d1 hs1

/-- Selection lemma for the min-scan: the result is an eligible element of
the list, the recorded value is its score, and the value is minimal among
the scores of all eligible scored elements. -/
theorem bestMinScan_spec {κ : Type} (elig : κ → Bool) (score : κ → Option ℚ)
    (l : List κ) (k : κ) (d : ℚ) (h : bestMinScan elig score l = some (k, d)) :
    k ∈ l ∧ elig k ∧ score k = some d ∧
    ∀ k1 ∈ l, elig k1 → ∀ d1, score k1 = some d1 → d ≤ d1 := by
  rcases foldl_bestMinStep_some elig score l none k d h with h0 | hmem
  · cases h0
  · refine ⟨hmem.1, hmem.2.1, hmem.2.2, ?_⟩
    intro k1 hk1 he1 d1 hs1
    obtain ⟨k2, d2, heq, hle⟩ := foldl_bestMinStep_le elig score l none k1 hk1 he1 d1 hs1
    rw [bestMinScan] at h
    rw [h] at heq
    cases heq
    exact hle

/-- A min-scan returns `none` only when no eligible element has a score. -/
theorem bestMinScan_none {κ : Type} (elig : κ → Bool) (score : κ → Option ℚ)
    (l : List κ) (h : bestMinScan elig score l = none) :
    ∀ k1 ∈ l, elig k1 → score k1 = none := by
  intro k1 hk1 he1
  cases hs1 : score k1 with
  | none => rfl
  | some d1 =>
    obtain ⟨k2, d2, heq, _⟩ := foldl_bestMinStep_le elig score l none k1 hk1 he1 d1 hs1
    rw [bestMinScan] at h
    rw [h] at heq
    cases heq

/-- Starting a max-scan from a recorded best only raises the value. -/
theorem foldl_bestMaxStep_mono {κ : Type} (elig : κ → Bool)
    (score : κ → Option ℚ) (ok : ℚ → Prop) [DecidablePred ok] (l : List κ) :
    ∀ k0 v0, ∃ k v,
      l.foldl (bestMaxStep elig score ok) (some (k0, v0)) = some (k, v) ∧
      v0 ≤ v := by
  induction l with
  | nil => exact fun k0 v0 => ⟨k0, v0, rfl, le_rfl⟩
  | cons a t ih =>
    intro k0 v0
    rw [List.foldl_cons]
    by_cases he : elig a
    · cases hs : score a with
      | none =>
        have hstep : bestMaxStep elig score ok (some (k0, v0)) a = some (k0, v0) := by
          simp [bestMaxStep, he, hs]
        rw [hstep]; exact ih k0 v0
      | some v1 =>
        by_cases hcond : v0 < v1 ∧ ok v1
        · have hstep : bestMaxStep elig score ok (some (k0, v0)) a = some (a, v1) := by
            simp [bestMaxStep, he, hs, hcond.1, hcond.2]
          rw [hstep]
          obtain ⟨k, v, hk, hv⟩ := ih a v1
          exact ⟨k, v, hk, hcond.1.le.trans hv⟩
        · have hstep : bestMaxStep elig score ok (some (k0, v0)) a = some (k0, v0) := by
            simp only [bestMaxStep, he, hs, if_true]
            simp [hcond]
          rw [hstep]; exact ih k0 v0
    · have hstep : bestMaxStep elig score ok (some (k0, v0)) a = some (k0, v0) := by
        simp [bestMaxStep, he]
      rw [hstep]; exact ih k0 v0

/-- Provenance of a max-scan result, with positivity of the value (every
update must beat the baseline, which starts at `0`). -/
theorem foldl_bestMaxStep_some {κ : Type} (elig : κ → Bool)
    (score : κ → Option ℚ) (ok : ℚ → Prop) [DecidablePred ok] (l : List κ) :
    ∀ b k v, (b = none ∨ ∃ p, b = some p ∧ 0 < p.2) →
      l.foldl (bestMaxStep elig score ok) b = some (k, v) →
      (b = some (k, v) ∨ (k ∈ l ∧ elig k ∧ score k = some v ∧ ok v)) ∧ 0 < v := by
  induction l with
  | nil =>
    intro b k v hb h
    refine ⟨.inl h, ?_⟩
    rcases hb with rfl | ⟨p, rfl, hp⟩
    · cases h
    · cases h; exact hp
  | cons a t ih =>
    intro b k v hb h
    rw [List.foldl_cons] at h
    have hstep_inv : (bestMaxStep elig score ok b a = b) ∨
        (∃ v1, bestMaxStep elig score ok b a = some (a, v1) ∧ elig a ∧
          score a = some v1 ∧ ok v1 ∧ 0 < v1) := by
      by_cases he : elig a
      · cases hs : score a with
        | none => exact .inl (by simp [bestMaxStep, he, hs])
        | some v1 =>
          rcases hb with rfl | ⟨p, rfl, hp⟩
          · by_cases hcond : (0:ℚ) < v1 ∧ ok v1
            · exact .inr ⟨v1, by simp [bestMaxStep, he, hs, hcond.1, hcond.2],
                he, rfl, hcond.2, hcond.1⟩
            · exact .inl (by simp [bestMaxStep, he, hs, hcond])
          · by_cases hcond : p.2 < v1 ∧ ok v1
            · exact .inr ⟨v1, by simp [bestMaxStep, he, hs, hcond.1, hcond.2],
                he, rfl, hcond.2, lt_trans hp hcond.1⟩
            · exact .inl (by simp [bestMaxStep, he, hs, hcond])
      · exact .inl (by simp [bestMaxStep, he])
    rcases hstep_inv with heq | ⟨v1, heq, he, hs, hok, hpos⟩
    · rw [heq] at h
      obtain ⟨hcase, hv⟩ := ih b k v hb h
      rcases hcase with h1 | h2
      · exact ⟨.inl h1, hv⟩
      · exact ⟨.inr ⟨List.mem_cons_of_mem a h2.1, h2.2⟩, hv⟩
    · rw [heq] at h
      obtain ⟨hcase, hv⟩ := ih (some (a, v1)) k v (.inr ⟨(a, v1), rfl, hpos⟩) h
      rcases hcase with h1 | h2
      · cases h1
        exact ⟨.inr ⟨List.mem_cons_self _ _, he, hs, hok⟩, hv⟩
      · exact ⟨.inr ⟨List.mem_cons_of_mem a h2.1, h2.2⟩, hv⟩

/-- A max-scan result dominates the score of any eligible admissible element
with positive score. -/
theorem foldl_bestMaxStep_ge {κ : Type} (elig : κ → Bool)
    (score : κ → Option ℚ) (ok : ℚ → Prop) [DecidablePred ok] (l : List κ) :
    ∀ b k1, k1 ∈ l → elig k1 → ∀ v1, score k1 = some v1 → ok v1 → 0 < v1 →
      ∃ k v, l.foldl (bestMaxStep elig score ok) b = some (k, v) ∧ v1 ≤ v := by
  induction l with
  | nil => intro b k1 h; cases h
  | cons a t ih =>
    intro b k1 hmem he1 v1 hs1 hok1 hpos1
    rw [List.foldl_cons]
    rcases List.mem_cons.mp hmem with rfl | hmem2
    · cases b with
      | none =>
        have hstep : bestMaxStep elig score ok none k1 = some (k1, v1) := by
          simp [bestMaxStep, he1, hs1, hpos1, hok1]
        rw [hstep]
        exact foldl_bestMaxStep_mono elig score ok t k1 v1
      | some p =>
        by_cases hcond : p.2 < v1
        · have hstep : bestMaxStep elig score ok (some p) k1 = some (k1, v1) := by
            simp [bestMaxStep, he1, hs1, hcond, hok1]
          rw [hstep]
          exact foldl_bestMaxStep_mono elig score ok t k1 v1
        · have hnc : ¬ (p.2 < v1 ∧ ok v1) := fun hc => hcond hc.1
          have hstep : bestMaxStep elig score ok (some p) k1 = some p := by
            simp [bestMaxStep, he1, hs1, hnc]
          rw [hstep]
          obtain ⟨k, v, hk, hv⟩ := foldl_bestMaxStep_mono elig score ok t p.1 p.2
          exact ⟨k, v, hk, (not_lt.mp hcond).trans hv⟩
    · exact ih (bestMaxStep elig score ok b a) k1 hmem2 he1 v1 hs1 hok1 hpos1

/-- Selection lemma for the max-scan. -/
theorem bestMaxScan_spec {κ : Type} (elig : κ → Bool) (score : κ → Option ℚ)
    (ok : ℚ → Prop) [DecidablePred ok] (l : List κ) (k : κ) (v : ℚ)
    (h : bestMaxScan elig score ok l = some (k, v)) :
    k ∈ l ∧ elig k ∧ score k = some v ∧ ok v ∧ 0 < v ∧
    ∀ k1 ∈ l, elig k1 → ∀ v1, score k1 = some v1 → ok v1 → v1 ≤ v := by
  obtain ⟨hcase, hpos⟩ := foldl_bestMaxStep_some elig score ok l none k v (.inl rfl) h
  rcases hcase with h0 | hmem
  · cases h0
  · refine ⟨hmem.1, hmem.2.1, hmem.2.2.1, hmem.2.2.2, hpos, ?_⟩
    intro k1 hk1 he1 v1 hs1 hok1
    by_cases hpos1 : 0 < v1
    · obtain ⟨k2, v2, heq, hge⟩ :=
        foldl_bestMaxStep_ge elig score ok l none k1 hk1 he1 v1 hs1 hok1 hpos1
      rw [bestMaxScan] at h
      rw [h] at heq
      cases heq
      exact hge
    · exact (not_lt.mp hpos1).trans hpos.le

/-- A max-scan returns `none` only when no eligible element has an
admissible positive score. -/
theorem bestMaxScan_none {κ : Type} (elig : κ → Bool) (score : κ → Option ℚ)
    (ok : ℚ → Prop) [DecidablePred ok] (l : List κ)
    (h : bestMaxScan elig score ok l = none) :
    ∀ k1 ∈ l, elig k1 → ∀ v1, score k1 = some v1 → ok v1 → v1 ≤ 0 := by
  intro k1 hk1 he1 v1 hs1 hok1
  by_contra hpos
  obtain ⟨k2, v2, heq, _⟩ := foldl_bestMaxStep_ge elig score ok l none k1 hk1 he1
    v1 hs1 hok1 (lt_of_not_le fun hc => hpos (by exact hc))
  rw [bestMaxScan] at h
  rw [h] at heq
  cases heq

/-- `pickHost` is a min-scan over the hosts of the course. -/
theorem pickHost_eq_scan (dist : TDist) (cur : Team) (hs : List Team) :
    pickHost dist cur hs =
      bestMinScan (fun _ => true) (fun h => some (dist cur.id h.id)) hs := by
  unfold pickHost bestMinScan
  congr 1
  funext b h
  cases b <;> simp [bestMinStep]

/-- `findBestKitchen` is a min-scan over the course's available kitchens,
restricted to those below capacity. -/
theorem findBestKitchen_eq_scan (kdist : KDist) (usage : Nat → Nat)
    (avail : List Kitchen) (t : Team) :
    findBestKitchen kdist usage avail t =
      bestMinScan (fun k => decide (usage k.id < k.maxTeams))
        (fun k => kdist t.id k.id) avail := by
  unfold findBestKitchen bestMinScan
  congr 1
  funext b k
  by_cases h : usage k.id ≥ k.maxTeams
  · simp [bestMinStep, if_pos h, Nat.not_lt.mpr h]
  · cases hk : kdist t.id k.id <;>
      cases b <;>
      simp [bestMinStep, if_neg h, Nat.lt_of_not_le h, hk]

/-- `chooseHost` is a min-scan over the enumerated hosts, restricted to hosts
below their capacity target, with the code's selection score (the scan tracks
the enumerated pair, the code only the team — related by projection). -/
theorem chooseHost_eq_scan (dist : TDist) (meetings : Meet)
    (gph : Nat → List Team) (base extra : Nat) (hostTeams : List Team)
    (g : Team) :
    chooseHost dist meetings gph base extra hostTeams g =
      (bestMinScan
        (fun ih => decide
          ((gph ih.2.id).length < base + (if ih.1 < extra then 1 else 0)))
        (fun ih => some (codeSelectionScore dist meetings g ih.2 (gph ih.2.id)))
        hostTeams.enum).map (fun p => (p.1.2, p.2)) := by
  have aux : ∀ (l : List (Nat × Team)) (b : Option ((Nat × Team) × ℚ)),
      l.foldl (fun best ih =>
        let idx := ih.1
        let h := ih.2
        let target := base + (if idx < extra then 1 else 0)
        if (gph h.id).length ≥ target then best
        else
          let sc := codeSelectionScore dist meetings g h (gph h.id)
          match best with
          | some (_, bs) => if sc < bs then some (h, sc) else best
          | none => some (h, sc)) (b.map (fun p => (p.1.2, p.2))) =
      (l.foldl (bestMinStep
          (fun ih => decide
            ((gph ih.2.id).length < base + (if ih.1 < extra then 1 else 0)))
          (fun ih => some (codeSelectionScore dist meetings g ih.2 (gph ih.2.id))))
        b).map (fun p => (p.1.2, p.2)) := by
    intro l
    induction l with
    | nil => intro b; rfl
    | cons a t ih =>
      intro b
      rw [List.foldl_cons, List.foldl_cons, ← ih]
      congr 1
      by_cases h : (gph a.2.id).length ≥ base + (if a.1 < extra then 1 else 0)
      · cases b <;> simp [bestMinStep, if_pos h, Nat.not_lt.mpr h]
      · cases b with
        | none => simp [bestMinStep, if_neg h, Nat.lt_of_not_le h]
        | some p =>
          by_cases h2 : codeSelectionScore dist meetings g a.2 (gph a.2.id) < p.2 <;>
            simp [bestMinStep, if_neg h, Nat.lt_of_not_le h, h2]
  simpa [chooseHost, bestMinScan] using aux hostTeams.enum none

/-- `bestOpportunisticKitchen` is a max-scan of the savings over the
kitchens below capacity, admissible from 3 km on. -/
theorem bestOpportunisticKitchen_eq_scan (kdist : KDist) (usage : Nat → Nat)
    (avail : List Kitchen) (t : Team) (orig : ℚ) :
    bestOpportunisticKitchen kdist usage avail t orig =
      bestMaxScan (fun k => decide (usage k.id < k.maxTeams))
        (fun k => (kdist t.id k.id).map (fun d => orig - d))
        (fun v => 3 ≤ v) avail := by
  unfold bestOpportunisticKitchen bestMaxScan
  congr 1
  funext b k
  by_cases h : usage k.id ≥ k.maxTeams
  · simp [bestMaxStep, if_pos h, Nat.not_lt.mpr h]
  · cases hk : kdist t.id k.id <;>
      cases b <;>
      simp [bestMaxStep, if_neg h, Nat.lt_of_not_le h, hk]

/-- `findGuestToMove` is a max-scan of the home-to-host improvement over the
overloaded host's guests. -/
theorem findGuestToMove_eq_scan (dist : TDist) (gph : Nat → List Team)
    (O U : Team) :
    findGuestToMove dist gph O U =
      bestMaxScan (fun _ => true)
        (fun g => some (dist g.id O.id - dist g.id U.id)) (fun _ => True)
        (gph O.id) := by
  unfold findGuestToMove bestMaxScan
  congr 1
  funext b g
  cases b <;> simp [bestMaxStep]

/-- The resulting database state when the optimizer raises: prior runs and
assignments are gone, the new run stays `running` without an error message,
and the event is forced to `registration_closed`.  (`hFK` is the foreign-key
integrity of the stored assignments.) -/
theorem startOptimization_error_state (s : DbState) (rid : Nat) (e : OptError)
    (hFK : ∀ a ∈ s.assignments, a.runId ∈ s.runs.map (fun r => r.runId)) :
    startOptimization s rid (.error e) =
      { eventStatus := .registrationClosed
        runs := [{ runId := rid, status := .running, errorMessage := none }]
        assignments := [] } := by
  have hfil : s.assignments.filter
      (fun a => decide (a.runId ∉ s.runs.map (fun r => r.runId))) = [] := by
    refine List.filter_eq_nil_iff.mpr ?_
    intro a ha
    simp [hFK a ha]
  simp only [startOptimization]
  rw [hfil]
  simp

/-- The resulting database state when the optimizer succeeds. -/
theorem startOptimization_ok_state (s : DbState) (rid : Nat) (sol : Solution)
    (hFK : ∀ a ∈ s.assignments, a.runId ∈ s.runs.map (fun r => r.runId)) :
    startOptimization s rid (.ok sol) =
      { eventStatus := .optimized
        runs := [{ runId := rid, status := .completed, errorMessage := none }]
        assignments := sol.assignments.map (fun a =>
          { runId := rid, team := a.team, course := a.courseHosted,
            hosts := a.hosts, distances := a.distances,
            totalDistance := a.totalDistance }) } := by
  have hfil : s.assignments.filter
      (fun a => decide (a.runId ∉ s.runs.map (fun r => r.runId))) = [] := by
    refine List.filter_eq_nil_iff.mpr ?_
    intro a ha
    simp [hFK a ha]
  simp only [startOptimization]
  rw [hfil]
  simp

theorem sameRoute_refl (a : SAssign) : SameRoute a a :=
  ⟨rfl, rfl, rfl, rfl, rfl, rfl⟩

theorem sameRoute_trans {a b c : SAssign} (h1 : SameRoute a b)
    (h2 : SameRoute b c) : SameRoute a c :=
  ⟨h2.1.trans h1.1, h2.2.1.trans h1.2.1, h2.2.2.1.trans h1.2.2.1,
   h2.2.2.2.1.trans h1.2.2.2.1, h2.2.2.2.2.1.trans h1.2.2.2.2.1,
   h2.2.2.2.2.2.trans h1.2.2.2.2.2⟩

theorem forall2_sameRoute_trans :
    ∀ {l1 l2 l3 : List SAssign}, List.Forall₂ SameRoute l1 l2 →
      List.Forall₂ SameRoute l2 l3 → List.Forall₂ SameRoute l1 l3 := by
  intro l1 l2 l3 h1
  induction h1 generalizing l3 with
  | nil => intro h2; cases h2; exact .nil
  | cons hab h1t ih =>
    intro h2
    cases h2 with
    | cons hbc h2t => exact .cons (sameRoute_trans hab hbc) (ih h2t)

/-- Each opportunistic step appends exactly one record that agrees with the
input on everything but `guest_kitchen_usage`. -/
theorem oppCourseStep_shape (dist : TDist) (kdist : KDist)
    (avail : List Kitchen) (course : Course) (st : List SAssign × (Nat → Nat))
    (a : SAssign) :
    ∃ b u2, oppCourseStep dist kdist avail course st a = (st.1 ++ [b], u2) ∧
      SameRoute a b := by
  unfold oppCourseStep
  by_cases h1 : a.courseHosted = course
  · exact ⟨a, st.2, by simp [h1], sameRoute_refl a⟩
  · cases h2 : a.hosts.get course with
    | none => exact ⟨a, st.2, by simp [h1, h2], sameRoute_refl a⟩
    | some host =>
      cases h3 : bestOpportunisticKitchen kdist st.2 avail a.team
          (dist a.team.id host.id) with
      | none => exact ⟨a, st.2, by simp [h1, h2, h3], sameRoute_refl a⟩
      | some kv =>
        refine ⟨{ a with guestKitchenUsage :=
            (a.guestKitchenUsage.set course
              (some { kitchen := kv.1, distanceSavings := kv.2,
                      originalHost := host })) },
          bumpUsage st.2 kv.1.id, by simp [h1, h2, h3],
          ⟨rfl, rfl, rfl, rfl, rfl, rfl⟩⟩

/-- The opportunistic fold over one course only rewrites
`guest_kitchen_usage` entries. -/
theorem oppFold_forall2 (dist : TDist) (kdist : KDist) (avail : List Kitchen)
    (course : Course) :
    ∀ (l : List SAssign) (pre : List SAssign) (u : Nat → Nat),
      ∃ suf, (l.foldl (oppCourseStep dist kdist avail course) (pre, u)).1 =
        pre ++ suf ∧ List.Forall₂ SameRoute l suf := by
  intro l
  induction l with
  | nil => exact fun pre u => ⟨[], by simp, .nil⟩
  | cons a t ih =>
    intro pre u
    obtain ⟨b, u2, hstep, hsr⟩ := oppCourseStep_shape dist kdist avail course (pre, u) a
    rw [List.foldl_cons, hstep]
    obtain ⟨suf, hsuf, hf⟩ := ih (pre ++ [b]) u2
    exact ⟨b :: suf, by rw [hsuf]; simp, .cons hsr hf⟩

/-- One opportunistic course pass only rewrites `guest_kitchen_usage`. -/
theorem opportunisticCourse_forall2 (dist : TDist) (kdist : KDist)
    (kitchens : List Kitchen) (usage0 : Nat → Nat) (course : Course)
    (assigns : List SAssign) :
    List.Forall₂ SameRoute assigns
      (opportunisticCourse dist kdist kitchens usage0 course assigns) := by
  unfold opportunisticCourse
  by_cases h : (kitchens.filter (fun k =>
      k.canHostCourse course && decide (usage0 k.id < k.maxTeams))).isEmpty
  · simp only [h, if_true]
    exact List.forall₂_same.mpr fun a _ => sameRoute_refl a
  · simp only [h, if_false]
    obtain ⟨suf, hsuf, hf⟩ := oppFold_forall2 dist kdist _ course assigns [] usage0
    rw [hsuf]
    simpa using hf

/-- The full opportunistic pass only rewrites `guest_kitchen_usage`. -/
theorem assignGKOpp_forall2 (dist : TDist) (kdist : KDist)
    (kitchens : List Kitchen) (usage0 : Course → Nat → Nat)
    (assigns : List SAssign) :
    List.Forall₂ SameRoute assigns
      (assignGuestKitchensOpportunistic dist kdist kitchens usage0 assigns) := by
  unfold assignGuestKitchensOpportunistic
  have aux : ∀ (cs : List Course) (acc : List SAssign),
      List.Forall₂ SameRoute acc
        (cs.foldl (fun acc c =>
          opportunisticCourse dist kdist kitchens (usage0 c) c acc) acc) := by
    intro cs
    induction cs with
    | nil => exact fun acc => List.forall₂_same.mpr fun a _ => sameRoute_refl a
    | cons c ct ih =>
      intro acc
      rw [List.foldl_cons]
      exact forall2_sameRoute_trans
        (opportunisticCourse_forall2 dist kdist kitchens (usage0 c) c acc)
        (ih _)
  exact aux coursesList assigns

theorem CourseMap.get_set_same {α : Type} (m : CourseMap α) (c : Course)
    (a : α) : (m.set c a).get c = a := by
  cases c <;> rfl

theorem CourseMap.get_set_ne {α : Type} (m : CourseMap α) (c c0 : Course)
    (a : α) (h : ¬ c0 = c) : (m.set c a).get c0 = m.get c0 := by
  cases c <;> cases c0 <;> first | rfl | exact absurd rfl h

/-- A nonempty host list always yields a pick (`best_host` cannot stay
`None` when `self.distances` is total). -/
theorem pickHost_ne_none (dist : TDist) (cur : Team) (hs : List Team)
    (h : hs ≠ []) : pickHost dist cur hs ≠ none := by
  intro hnone
  rw [pickHost_eq_scan] at hnone
  have hall := bestMinScan_none _ _ _ hnone
  cases hs with
  | nil => exact h rfl
  | cons a t => cases hall a (List.mem_cons_self a t) rfl

/-- The picked host is in the list, the recorded distance is its distance
from the current location, and it is minimal. -/
theorem pickHost_spec (dist : TDist) (cur : Team) (hs : List Team)
    (h : Team) (d : ℚ) (heq : pickHost dist cur hs = some (h, d)) :
    h ∈ hs ∧ d = dist cur.id h.id ∧
    ∀ h2 ∈ hs, d ≤ dist cur.id h2.id := by
  rw [pickHost_eq_scan] at heq
  obtain ⟨hmem, _, hscore, hmin⟩ := bestMinScan_spec _ _ _ _ _ heq
  refine ⟨hmem, (Option.some_injective _ hscore).symm, ?_⟩
  intro h2 hh2
  exact hmin h2 hh2 rfl _ rfl

/-- One route step, described by its two branches. -/
theorem routeCourseStep_spec (dist : TDist) (hostsBy : Course → List Team)
    (g : Team) (myCourse : Course) (st : RouteState) (c : Course)
    (hne : hostsBy c ≠ []) :
    (c = myCourse → routeCourseStep dist g myCourse hostsBy st c =
      { currentLocation := g
        hosts := st.hosts.set c none
        distances := st.distances.set c
          (if st.currentLocation.id ≠ g.id
           then dist st.currentLocation.id g.id else 0) }) ∧
    (¬ c = myCourse → ∃ h, h ∈ hostsBy c ∧
      routeCourseStep dist g myCourse hostsBy st c =
        { currentLocation := h
          hosts := st.hosts.set c (some h)
          distances := st.distances.set c (dist st.currentLocation.id h.id) } ∧
      ∀ h2 ∈ hostsBy c,
        dist st.currentLocation.id h.id ≤ dist st.currentLocation.id h2.id) := by
  constructor
  · intro hc
    simp [routeCourseStep, hc]
  · intro hc
    cases hk : pickHost dist st.currentLocation (hostsBy c) with
    | none => exact absurd hk (pickHost_ne_none _ _ _ hne)
    | some p =>
      obtain ⟨hmem, hd, hmin⟩ := pickHost_spec _ _ _ _ _ hk
      refine ⟨p.1, hmem, ?_, ?_⟩
      · rw [← hd]
        simp [routeCourseStep, hc, hk]
      · intro h2 hh2
        rw [← hd]
        exact hmin h2 hh2

/-- Every route step writes only its own course's entries. -/
theorem routeCourseStep_pres (dist : TDist) (hostsBy : Course → List Team)
    (g : Team) (myCourse : Course) (st : RouteState) (c c0 : Course)
    (hne : hostsBy c ≠ []) (h0 : ¬ c0 = c) :
    (routeCourseStep dist g myCourse hostsBy st c).hosts.get c0 =
      st.hosts.get c0 ∧
    (routeCourseStep dist g myCourse hostsBy st c).distances.get c0 =
      st.distances.get c0 := by
  obtain ⟨hhost, hguest⟩ := routeCourseStep_spec dist hostsBy g myCourse st c hne
  by_cases hc : c = myCourse
  · rw [hhost hc]
    exact ⟨CourseMap.get_set_ne _ _ _ _ h0, CourseMap.get_set_ne _ _ _ _ h0⟩
  · obtain ⟨h, _, heq, _⟩ := hguest hc
    rw [heq]
    exact ⟨CourseMap.get_set_ne _ _ _ _ h0, CourseMap.get_set_ne _ _ _ _ h0⟩

/-- Closed form of the `diversity_penalty` accumulation loop. -/
theorem diversityPenalty_closed (meetings : Meet) (g h : Team) :
    ∀ (existing : List Team) (acc : ℚ),
      existing.foldl (fun acc eg =>
        acc + (meetings (pairKey g.id eg.id) : ℚ) * 1000
            + (meetings (pairKey g.id h.id) : ℚ) * 1000) acc =
      acc + 1000 * ((existing.map
          (fun eg => (meetings (pairKey g.id eg.id) : ℚ))).sum)
        + 1000 * existing.length * (meetings (pairKey g.id h.id) : ℚ) := by
  intro existing
  induction existing with
  | nil => intro acc; simp
  | cons e t ih =>
    intro acc
    rw [List.foldl_cons, ih]
    simp only [List.map_cons, List.sum_cons, List.length_cons]
    push_cast
    ring

/-- Pointwise description of the pair-counter fold over the new guest list. -/
theorem meetFold_spec (g : Team) (k : Nat × Nat) :
    ∀ (gl : List Team) (m : Meet),
      (gl.foldl (fun acc eg =>
        if eg.id ≠ g.id then bumpMeet acc (pairKey g.id eg.id) else acc) m) k =
      m k + (gl.filter (fun eg =>
        decide (eg.id ≠ g.id) && decide (pairKey g.id eg.id = k))).length := by
  intro gl
  induction gl with
  | nil => intro m; simp
  | cons e t ih =>
    intro m
    rw [List.foldl_cons]
    by_cases h1 : e.id ≠ g.id
    · by_cases h2 : pairKey g.id e.id = k
      · rw [if_pos h1, ih]
        simp [bumpMeet, h1, h2]
        omega
      · rw [if_pos h1, ih]
        have h2' : ¬ k = pairKey g.id e.id := fun hh => h2 hh.symm
        simp [bumpMeet, h1, h2, h2']
    · rw [if_neg h1, ih]
      simp [h1]

/-- Evaluating a pair-counter bump. -/
theorem bumpMeet_apply (m : Meet) (k0 k : Nat × Nat) :
    bumpMeet m k0 k = if k = k0 then m k + 1 else m k := rfl

/-- Pointwise description of `updateMeetings`. -/
theorem updateMeetings_spec (m : Meet) (g h : Team) (gl : List Team)
    (k : Nat × Nat) :
    updateMeetings m g h gl k =
      m k + (gl.filter (fun eg =>
        decide (eg.id ≠ g.id) && decide (pairKey g.id eg.id = k))).length +
      (if k = pairKey g.id h.id then 1 else 0) := by
  unfold updateMeetings
  rw [bumpMeet_apply, meetFold_spec]
  by_cases hk : k = pairKey g.id h.id <;> simp [hk]

/-- The mandatory-pass kitchen pick: the chosen kitchen is available, below
capacity, at the recorded distance, and that distance is minimal among
kitchens below capacity with a recorded distance. -/
theorem findBestKitchen_spec (kdist : KDist) (usage : Nat → Nat)
    (avail : List Kitchen) (t : Team) (k : Kitchen) (d : ℚ)
    (h : findBestKitchen kdist usage avail t = some (k, d)) :
    k ∈ avail ∧ usage k.id < k.maxTeams ∧ kdist t.id k.id = some d ∧
    ∀ k1 ∈ avail, usage k1.id < k1.maxTeams → ∀ d1,
      kdist t.id k1.id = some d1 → d ≤ d1 := by
  rw [findBestKitchen_eq_scan] at h
  obtain ⟨hmem, helig, hscore, hmin⟩ := bestMinScan_spec _ _ _ _ _ h
  exact ⟨hmem, by simpa using helig, hscore,
    fun k1 hk1 hc1 d1 hd1 => hmin k1 hk1 (by simpa using hc1) d1 hd1⟩

/-- `best_kitchen` stays `None` only when every below-capacity kitchen lacks
a recorded distance. -/
theorem findBestKitchen_none (kdist : KDist) (usage : Nat → Nat)
    (avail : List Kitchen) (t : Team)
    (h : findBestKitchen kdist usage avail t = none) :
    ∀ k1 ∈ avail, usage k1.id < k1.maxTeams → kdist t.id k1.id = none := by
  rw [findBestKitchen_eq_scan] at h
  intro k1 hk1 hc1
  exact bestMinScan_none _ _ _ h k1 hk1 (by simpa using hc1)

/-- A successful mandatory per-team loop is exactly a `MandSteps` trace. -/
theorem assignMandatoryTeams_ok (kdist : KDist) (avail : List Kitchen) :
    ∀ (ts : List Team) (u : Nat → Nat) (cr : List (Team × Kitchen × ℚ))
      (u2 : Nat → Nat),
      assignMandatoryTeams kdist avail ts u = .ok (cr, u2) →
      MandSteps kdist avail u ts cr u2 := by
  intro ts
  induction ts with
  | nil =>
    intro u cr u2 h
    simp only [assignMandatoryTeams] at h
    cases h
    exact .nil u
  | cons t ts ih =>
    intro u cr u2 h
    cases hbk : findBestKitchen kdist u avail t with
    | none =>
      have hval : assignMandatoryTeams kdist avail (t :: ts) u =
          .error .kitchenUnavailable := by
        simp [assignMandatoryTeams, hbk]
      rw [hval] at h
      exact Except.noConfusion h
    | some p =>
      obtain ⟨k, d⟩ := p
      cases hrec : assignMandatoryTeams kdist avail ts (bumpUsage u k.id) with
      | error e =>
        have hval : assignMandatoryTeams kdist avail (t :: ts) u = .error e := by
          simp [assignMandatoryTeams, hbk, hrec]
        rw [hval] at h
        exact Except.noConfusion h
      | ok pr =>
        obtain ⟨rest, u3⟩ := pr
        have hval : assignMandatoryTeams kdist avail (t :: ts) u =
            .ok ((t, k, d) :: rest, u3) := by
          simp [assignMandatoryTeams, hbk, hrec]
        rw [hval] at h
        cases h
        exact .cons u t k d ts rest _ hbk (ih _ _ _ hrec)

/-- A failing mandatory per-team loop fails with `KitchenUnavailable`:
after a valid trace for a prefix of the teams, some team finds no feasible
kitchen. -/
theorem assignMandatoryTeams_error (kdist : KDist) (avail : List Kitchen) :
    ∀ (ts : List Team) (u : Nat → Nat) (e : OptError),
      assignMandatoryTeams kdist avail ts u = .error e →
      e = .kitchenUnavailable ∧
      ∃ pre cr u3 t3 suf, ts = pre ++ t3 :: suf ∧
        MandSteps kdist avail u pre cr u3 ∧
        findBestKitchen kdist u3 avail t3 = none := by
  intro ts
  induction ts with
  | nil => intro u e h; simp only [assignMandatoryTeams] at h; cases h
  | cons t ts ih =>
    intro u e h
    cases hbk : findBestKitchen kdist u avail t with
    | none =>
      have hval : assignMandatoryTeams kdist avail (t :: ts) u =
          .error .kitchenUnavailable := by
        simp [assignMandatoryTeams, hbk]
      rw [hval] at h
      injection h with h3
      exact ⟨h3.symm, [], [], u, t, ts, rfl, .nil u, hbk⟩
    | some p =>
      obtain ⟨k, d⟩ := p
      cases hrec : assignMandatoryTeams kdist avail ts (bumpUsage u k.id) with
      | ok pr =>
        obtain ⟨rest, u3⟩ := pr
        have hval : assignMandatoryTeams kdist avail (t :: ts) u =
            .ok ((t, k, d) :: rest, u3) := by
          simp [assignMandatoryTeams, hbk, hrec]
        rw [hval] at h
        exact Except.noConfusion h
      | error e2 =>
        have hval : assignMandatoryTeams kdist avail (t :: ts) u = .error e2 := by
          simp [assignMandatoryTeams, hbk, hrec]
        rw [hval] at h
        injection h with h3
        subst h3
        obtain ⟨he2, pre, cr, u3, t3, suf, hts, hsteps, hnone⟩ := ih _ _ hrec
        refine ⟨he2, t :: pre, (t, k, d) :: cr, u3, t3, suf, by rw [hts]; rfl,
          .cons u t k d pre cr u3 hbk hsteps, hnone⟩

/-- Along a mandatory trace no kitchen's usage counter ever exceeds its
`max_teams` (kitchen ids assumed distinct, initial counters within
capacity). -/
theorem mandSteps_capacity (kdist : KDist) (avail : List Kitchen)
    (u : Nat → Nat) (ts : List Team) (cr : List (Team × Kitchen × ℚ))
    (u2 : Nat → Nat) (h : MandSteps kdist avail u ts cr u2)
    (hnodup : (avail.map (fun k => k.id)).Nodup) :
    (∀ k1 ∈ avail, u k1.id ≤ k1.maxTeams) →
    ∀ k1 ∈ avail, u2 k1.id ≤ k1.maxTeams := by
  induction h with
  | nil _ => exact fun hinit => hinit
  | cons u t k d ts rest u2 hbk hsteps ih =>
    intro hinit
    refine ih ?_
    obtain ⟨hkmem, hklt, _, _⟩ := findBestKitchen_spec _ _ _ _ _ _ hbk
    intro k1 hk1
    by_cases hid : k1.id = k.id
    · have hk1k : k1 = k :=
        List.inj_on_of_nodup_map hnodup hk1 hkmem (by simpa using hid)

      subst hk1k
      simpa [bumpUsage, hid] using hklt
    · simpa [bumpUsage, hid] using hinit k1 hk1

/-- A failing mandatory course pass fails with `KitchenUnavailable`. -/
theorem mandatoryCourse_error (kdist : KDist) (kitchens : List Kitchen)
    (u : Nat → Nat) (assigns : List SAssign) (c : Course) (e : OptError)
    (h : mandatoryCourse kdist kitchens u assigns c = .error e) :
    e = .kitchenUnavailable := by
  cases h1 : (assigns.filter (fun a =>
      decide (a.courseHosted = c) && a.team.needsGuestKitchen)).isEmpty with
  | true =>
    have hval : mandatoryCourse kdist kitchens u assigns c = .ok [] := by
      simp [mandatoryCourse, h1]
    rw [hval] at h
    exact Except.noConfusion h
  | false =>
    cases h2 : (kitchens.filter (fun k => k.canHostCourse c)).isEmpty with
    | true =>
      have hval : mandatoryCourse kdist kitchens u assigns c =
          .error .kitchenUnavailable := by
        simp [mandatoryCourse, h1, h2]
      rw [hval] at h
      injection h with h3
      exact h3.symm
    | false =>
      cases hrec : assignMandatoryTeams kdist
          (kitchens.filter (fun k => k.canHostCourse c))
          ((assigns.filter (fun a =>
            decide (a.courseHosted = c) && a.team.needsGuestKitchen)).map
              (fun a => a.team)) u with
      | ok pr =>
        obtain ⟨cr2, u2⟩ := pr
        have hval : mandatoryCourse kdist kitchens u assigns c = .ok cr2 := by
          simp [mandatoryCourse, h1, h2, hrec]
        rw [hval] at h
        exact Except.noConfusion h
      | error e2 =>
        have hval : mandatoryCourse kdist kitchens u assigns c = .error e2 := by
          simp [mandatoryCourse, h1, h2, hrec]
        rw [hval] at h
        injection h with h3
        rw [← h3]
        exact (assignMandatoryTeams_error kdist _ _ _ _ hrec).1

/-- The whole mandatory pass fails only with `KitchenUnavailable`. -/
theorem mandatoryCourses_error (kdist : KDist) (kitchens : List Kitchen)
    (usage0 : Course → Nat → Nat) (assigns : List SAssign) :
    ∀ (cs : List Course) (e : OptError),
      mandatoryCourses kdist kitchens usage0 assigns cs = .error e →
      e = .kitchenUnavailable := by
  intro cs
  induction cs with
  | nil => intro e h; cases h
  | cons c ct ih =>
    intro e h
    simp only [mandatoryCourses] at h
    cases hc : mandatoryCourse kdist kitchens (usage0 c) assigns c with
    | error e2 =>
      rw [hc] at h
      cases h
      exact mandatoryCourse_error kdist kitchens (usage0 c) assigns c e hc
    | ok cr =>
      rw [hc] at h
      cases hrec : mandatoryCourses kdist kitchens usage0 assigns ct with
      | error e2 =>
        rw [hrec] at h
        cases h
        exact ih e hrec
      | ok rest => rw [hrec] at h; cases h

/-- A successful mandatory course pass is empty (no team needed a kitchen)
or a full `MandSteps` trace over the course's mandatory teams. -/
theorem mandatoryCourse_ok_trace (kdist : KDist) (kitchens : List Kitchen)
    (u : Nat → Nat) (assigns : List SAssign) (c : Course)
    (cr : List (Team × Kitchen × ℚ))
    (h : mandatoryCourse kdist kitchens u assigns c = .ok cr) :
    (assigns.filter (fun a =>
      decide (a.courseHosted = c) && a.team.needsGuestKitchen) = [] ∧
      cr = []) ∨
    ∃ u2, MandSteps kdist (kitchens.filter (fun k => k.canHostCourse c)) u
      ((assigns.filter (fun a =>
        decide (a.courseHosted = c) && a.team.needsGuestKitchen)).map
          (fun a => a.team)) cr u2 := by
  cases h1 : (assigns.filter (fun a =>
      decide (a.courseHosted = c) && a.team.needsGuestKitchen)).isEmpty with
  | true =>
    have hval : mandatoryCourse kdist kitchens u assigns c = .ok [] := by
      simp [mandatoryCourse, h1]
    rw [hval] at h
    cases h
    exact .inl ⟨List.isEmpty_iff.mp h1, rfl⟩
  | false =>
    cases h2 : (kitchens.filter (fun k => k.canHostCourse c)).isEmpty with
    | true =>
      have hval : mandatoryCourse kdist kitchens u assigns c =
          .error .kitchenUnavailable := by
        simp [mandatoryCourse, h1, h2]
      rw [hval] at h
      exact Except.noConfusion h
    | false =>
      cases hrec : assignMandatoryTeams kdist
          (kitchens.filter (fun k => k.canHostCourse c))
          ((assigns.filter (fun a =>
            decide (a.courseHosted = c) && a.team.needsGuestKitchen)).map
              (fun a => a.team)) u with
      | error e2 =>
        have hval : mandatoryCourse kdist kitchens u assigns c = .error e2 := by
          simp [mandatoryCourse, h1, h2, hrec]
        rw [hval] at h
        exact Except.noConfusion h
      | ok pr =>
        obtain ⟨cr2, u2⟩ := pr
        have hval : mandatoryCourse kdist kitchens u assigns c = .ok cr2 := by
          simp [mandatoryCourse, h1, h2, hrec]
        rw [hval] at h
        cases h
        exact .inr ⟨u2, assignMandatoryTeams_ok kdist _ _ _ _ _ hrec⟩

/-- Unrolling the after-party fold when every looked-up leg is positive. -/
theorem apFold_spec (apDist : APDist) (l : List SAssign) :
    ∀ acc : List SAssign × ℚ × Nat,
    (∀ a ∈ l, 0 < (apDist (lastLocation a)).getD 0) →
    l.foldl (apStep apDist) acc =
      (acc.1 ++ l.map (fun a =>
        { a with
          afterpartyRoute := some (lastLocation a, (apDist (lastLocation a)).getD 0)
          totalDistance := a.totalDistance + (apDist (lastLocation a)).getD 0 }),
       acc.2.1 + (l.map (fun a => (apDist (lastLocation a)).getD 0)).sum,
       acc.2.2 + l.length) := by
  induction l with
  | nil => intro acc _; simp
  | cons a t ih =>
    intro acc h
    have hpos : 0 < (apDist (lastLocation a)).getD 0 := h a (List.mem_cons_self a t)
    have ht : ∀ b ∈ t, 0 < (apDist (lastLocation b)).getD 0 :=
      fun b hb => h b (List.mem_cons_of_mem a hb)
    simp only [List.foldl_cons]
    rw [ih (apStep apDist acc a) ht]
    simp only [apStep, hpos, if_pos]
    refine Prod.ext ?_ (Prod.ext ?_ ?_)
    · simp [List.append_assoc]
    · simp; ring
    · simp; omega

/-! ## Claim theorems -/

/-- **C1, counterexample.**  Start from an event in status `optimized` with a
completed run 0 and one stored assignment, and let the optimizer raise.  The
claim says the prior assignments survive, the event keeps its previous status
and the failing run is recorded as `failed` with an `error_message`; the code
instead has already deleted the prior run and its assignment before
optimizing, leaves the new run in status `running` with no error message, and
forces the event to `registration_closed`. -/
theorem c1_counterexample :
    exPriorState.assignments ≠ [] ∧
    exPriorState.eventStatus = .optimized ∧
    (startOptimization exPriorState 1 (.error (.other 0))).assignments = [] ∧
    (startOptimization exPriorState 1 (.error (.other 0))).eventStatus =
      .registrationClosed ∧
    (startOptimization exPriorState 1 (.error (.other 0))).runs =
      [{ runId := 1, status := .running, errorMessage := none }] ∧
    (∀ r ∈ (startOptimization exPriorState 1 (.error (.other 0))).runs,
      r.status ≠ .failed ∧ r.errorMessage = none) := by decide

/-- **C1, amended.**  `start_optimization` deletes every prior run and all
their assignments unconditionally before the optimizer runs (provided every
stored assignment references a stored run, as the foreign key guarantees).
When the optimizer raises, the sole surviving run is the new one, still in
status `running` with no `error_message`, no assignments exist, and the event
status becomes `registration_closed` regardless of its previous value.  When
the optimizer succeeds, the new run is `completed`, one assignment row per
solution assignment is stored and the event becomes `optimized`. -/
theorem c1_run_lifecycle (s : DbState) (rid : Nat)
    (hFK : ∀ a ∈ s.assignments, a.runId ∈ s.runs.map (fun r => r.runId)) :
    (∀ e : OptError,
      startOptimization s rid (.error e) =
        { eventStatus := .registrationClosed
          runs := [{ runId := rid, status := .running, errorMessage := none }]
          assignments := [] }) ∧
    (∀ sol : Solution,
      startOptimization s rid (.ok sol) =
        { eventStatus := .optimized
          runs := [{ runId := rid, status := .completed, errorMessage := none }]
          assignments := sol.assignments.map (fun a =>
            { runId := rid, team := a.team, course := a.courseHosted,
              hosts := a.hosts, distances := a.distances,
              totalDistance := a.totalDistance }) }) :=
  ⟨fun e => startOptimization_error_state s rid e hFK,
   fun sol => startOptimization_ok_state s rid sol hFK⟩

/-- Closed instance of `c1_run_lifecycle`. -/
theorem c1_run_lifecycle_witness :
    startOptimization exPriorState 7 (.error .kitchenUnavailable) =
      { eventStatus := .registrationClosed
        runs := [{ runId := 7, status := .running, errorMessage := none }]
        assignments := [] } :=
  (c1_run_lifecycle exPriorState 7 (by decide)).1 .kitchenUnavailable

/-- **C10.**  When an after-party location exists and the looked-up distance
from every team's last location is positive, `add_afterparty_routes` gives
every team an after-party leg from its last location (guest kitchen used at
dessert if recorded, else the dessert host, else its own home) of exactly
that positive distance, adds exactly that leg to the per-team total, adds the
sum of all legs to the objective value, and emits `afterparty_stats` with
`teams_count` equal to the number of teams. -/
theorem c10_afterparty_extension (apDist : APDist) (sol : Solution)
    (hpos : ∀ a ∈ sol.assignments, 0 < (apDist (lastLocation a)).getD 0)
    (hne : sol.assignments ≠ []) :
    (addAfterpartyRoutes apDist sol).assignments =
      sol.assignments.map (fun a =>
        { a with
          afterpartyRoute := some (lastLocation a, (apDist (lastLocation a)).getD 0)
          totalDistance := a.totalDistance + (apDist (lastLocation a)).getD 0 }) ∧
    (addAfterpartyRoutes apDist sol).objectiveValue =
      sol.objectiveValue +
        (sol.assignments.map (fun a => (apDist (lastLocation a)).getD 0)).sum ∧
    (addAfterpartyRoutes apDist sol).afterpartyStats =
      some { totalDistance :=
               (sol.assignments.map (fun a => (apDist (lastLocation a)).getD 0)).sum
             averageDistance :=
               (sol.assignments.map (fun a => (apDist (lastLocation a)).getD 0)).sum /
                 (sol.assignments.length : ℚ)
             teamsCount := sol.assignments.length } := by
  have hlen : 0 < sol.assignments.length := List.length_pos.mpr hne
  unfold addAfterpartyRoutes
  rw [apFold_spec apDist sol.assignments ([], 0, 0) hpos]
  simp [hlen]

/-- **C9, counterexample.**  The cache key of `calculate_walking_distance`
formats the coordinates with `:.4f` — four decimal digits, not seven.  The
two inputs below are equal after rounding every coordinate to 7 decimal
digits, yet they produce different cache keys, and the second call issues a
new upstream request instead of returning the cached distance. -/
theorem c9_counterexample :
    quant7 exCoordP.1 = quant7 exCoordQ.1 ∧
    quant7 exCoordP.2 = quant7 exCoordQ.2 ∧
    cacheKey exCoordP exCoordO ≠ cacheKey exCoordQ exCoordO ∧
    exCall1.2.2 = true ∧
    exCall2.2.2 = true := by with_unfolding_all decide

/-- **C9, amended.**  `distance(src, dst)` quantises both coordinate pairs to
FOUR decimal digits for cache keying: any two coordinate pairs equal after
rounding each latitude and longitude to 4 decimal digits use the same cache
key, and when the first call obtained its distance from the API chain (a
nonzero result, which the code caches), a second call within the TTL returns
that cached distance without a new upstream request. -/
theorem c9_cache_quantisation (api : Coord → Coord → Option ℚ)
    (hav : Coord → Coord → ℚ) (cache : RouteCache) (src1 dst1 src2 dst2 : Coord)
    (hk1 : quant4 src1.1 = quant4 src2.1) (hk2 : quant4 src1.2 = quant4 src2.2)
    (hk3 : quant4 dst1.1 = quant4 dst2.1) (hk4 : quant4 dst1.2 = quant4 dst2.2)
    (hmiss : cache (cacheKey src1 dst1) = none)
    (d : ℚ) (hapi : api src1 dst1 = some d) (hd : d ≠ 0) :
    cacheKey src1 dst1 = cacheKey src2 dst2 ∧
    calculateWalkingDistance api hav cache src1 dst1 =
      (d, fun k => if k = cacheKey src1 dst1 then some d else cache k, true) ∧
    calculateWalkingDistance api hav
        (calculateWalkingDistance api hav cache src1 dst1).2.1 src2 dst2 =
      ((calculateWalkingDistance api hav cache src1 dst1).1,
       (calculateWalkingDistance api hav cache src1 dst1).2.1, false) := by
  have hk : cacheKey src1 dst1 = cacheKey src2 dst2 := by
    simp [cacheKey, hk1, hk2, hk3, hk4]
  have h1 : calculateWalkingDistance api hav cache src1 dst1 =
      (d, fun k => if k = cacheKey src1 dst1 then some d else cache k, true) := by
    simp [calculateWalkingDistance, hmiss, hapi]
  refine ⟨hk, h1, ?_⟩
  rw [h1]
  simp [calculateWalkingDistance, ← hk, hd]

/-- Closed instance of `c9_cache_quantisation`. -/
theorem c9_cache_quantisation_witness :
    cacheKey (1, 1) (2, 2) = cacheKey (1, 1) (2, 2) ∧
    calculateWalkingDistance exApi exHav exCacheEmpty (1, 1) (2, 2) =
      (1, fun k => if k = cacheKey (1, 1) (2, 2) then some 1 else exCacheEmpty k,
       true) ∧
    calculateWalkingDistance exApi exHav
        (calculateWalkingDistance exApi exHav exCacheEmpty (1, 1) (2, 2)).2.1
        (1, 1) (2, 2) =
      ((calculateWalkingDistance exApi exHav exCacheEmpty (1, 1) (2, 2)).1,
       (calculateWalkingDistance exApi exHav exCacheEmpty (1, 1) (2, 2)).2.1,
       false) :=
  c9_cache_quantisation exApi exHav exCacheEmpty (1, 1) (2, 2) (1, 1) (2, 2)
    rfl rfl rfl rfl rfl 1 rfl (by norm_num)

/-- **C2.**  Mandatory guest-kitchen allocation: a successful pass serves
each hosting team that `needs_guest_kitchen` (for its hosted course) through
a `MandSteps` trace, in which each such team receives a feasible kitchen
(course allowed — membership in the `can_host_course` filter — and current
usage < `max_teams`) of minimal recorded distance, bumping its usage
counter, so that with distinct kitchen ids and in-capacity initial counters
no kitchen ever exceeds `max_teams` for one course; if some team finds no
feasible kitchen at its turn, the pass fails, the only error the pass
produces is `KitchenUnavailable`, and when the optimizer fails no team
assignments are persisted. -/
theorem c2_mandatory_kitchens (kdist : KDist) (kitchens : List Kitchen)
    (usage0 : Course → Nat → Nat) (assigns : List SAssign) :
    (∀ (usage : Nat → Nat) (avail : List Kitchen) (t : Team) (k : Kitchen)
      (d : ℚ),
      findBestKitchen kdist usage avail t = some (k, d) →
      k ∈ avail ∧ usage k.id < k.maxTeams ∧ kdist t.id k.id = some d ∧
      ∀ k1 ∈ avail, usage k1.id < k1.maxTeams → ∀ d1,
        kdist t.id k1.id = some d1 → d ≤ d1) ∧
    (∀ (c : Course) (cr : List (Team × Kitchen × ℚ)),
      mandatoryCourse kdist kitchens (usage0 c) assigns c = .ok cr →
      (assigns.filter (fun a =>
        decide (a.courseHosted = c) && a.team.needsGuestKitchen) = [] ∧
        cr = []) ∨
      ∃ u2, MandSteps kdist (kitchens.filter (fun k => k.canHostCourse c))
        (usage0 c)
        ((assigns.filter (fun a =>
          decide (a.courseHosted = c) && a.team.needsGuestKitchen)).map
            (fun a => a.team)) cr u2) ∧
    (∀ (avail : List Kitchen) (u : Nat → Nat) (ts : List Team)
      (cr : List (Team × Kitchen × ℚ)) (u2 : Nat → Nat),
      MandSteps kdist avail u ts cr u2 →
      (avail.map (fun k => k.id)).Nodup →
      (∀ k1 ∈ avail, u k1.id ≤ k1.maxTeams) →
      ∀ k1 ∈ avail, u2 k1.id ≤ k1.maxTeams) ∧
    (∀ (avail : List Kitchen) (ts : List Team) (u : Nat → Nat) (e : OptError),
      assignMandatoryTeams kdist avail ts u = .error e →
      e = .kitchenUnavailable ∧
      ∃ pre cr u3 t3 suf, ts = pre ++ t3 :: suf ∧
        MandSteps kdist avail u pre cr u3 ∧
        findBestKitchen kdist u3 avail t3 = none) ∧
    (∀ e, assignGuestKitchensMandatory kdist kitchens usage0 assigns =
        .error e → e = .kitchenUnavailable) ∧
    (∀ (s : DbState) (rid : Nat),
      (∀ a ∈ s.assignments, a.runId ∈ s.runs.map (fun r => r.runId)) →
      (startOptimization s rid (.error .kitchenUnavailable)).assignments =
        []) := by
  refine ⟨?_, ?_, ?_, ?_, ?_, ?_⟩
  · exact fun usage avail t k d h =>
      findBestKitchen_spec kdist usage avail t k d h
  · exact fun c cr h =>
      mandatoryCourse_ok_trace kdist kitchens (usage0 c) assigns c cr h
  · exact fun avail u ts cr u2 h hnd hin =>
      mandSteps_capacity kdist avail u ts cr u2 h hnd hin
  · exact fun avail ts u e h =>
      assignMandatoryTeams_error kdist avail ts u e h
  · exact fun e h =>
      mandatoryCourses_error kdist kitchens usage0 assigns coursesList e h
  · intro s rid hFK
    rw [startOptimization_error_state s rid _ hFK]

/-- Closed instance of `c2_mandatory_kitchens`. -/
theorem c2_mandatory_kitchens_witness :
    exKitchen1 ∈ [exKitchen1] ∧
    (fun _ : Nat => 0) exKitchen1.id < exKitchen1.maxTeams ∧
    exOppKDist exTeamA.id exKitchen1.id = some 1 ∧
    (∀ k1 ∈ [exKitchen1], (fun _ : Nat => 0) k1.id < k1.maxTeams → ∀ d1,
      exOppKDist exTeamA.id k1.id = some d1 → (1 : ℚ) ≤ d1) :=
  (c2_mandatory_kitchens exOppKDist [exKitchen1] (fun _ _ => 0) []).1
    (fun _ => 0) [exKitchen1] exTeamA exKitchen1 1
    (by with_unfolding_all decide)

/-- The final per-course entries of a route equal the entries written by the
step of that course (later steps only write their own course). -/
theorem routeForTeam_get (dist : TDist) (hostsBy : Course → List Team)
    (g : Team) (myCourse : Course) (hne : ∀ c, hostsBy c ≠ []) :
    ((routeForTeam dist hostsBy g myCourse).hosts.get .appetizer =
      (routeCourseStep dist g myCourse hostsBy
        (rsPrefix dist hostsBy g myCourse []) .appetizer).hosts.get .appetizer ∧
     (routeForTeam dist hostsBy g myCourse).distances.get .appetizer =
      (routeCourseStep dist g myCourse hostsBy
        (rsPrefix dist hostsBy g myCourse []) .appetizer).distances.get
          .appetizer) ∧
    ((routeForTeam dist hostsBy g myCourse).hosts.get .mainCourse =
      (routeCourseStep dist g myCourse hostsBy
        (rsPrefix dist hostsBy g myCourse [.appetizer])
        .mainCourse).hosts.get .mainCourse ∧
     (routeForTeam dist hostsBy g myCourse).distances.get .mainCourse =
      (routeCourseStep dist g myCourse hostsBy
        (rsPrefix dist hostsBy g myCourse [.appetizer])
        .mainCourse).distances.get .mainCourse) ∧
    ((routeForTeam dist hostsBy g myCourse).hosts.get .dessert =
      (routeCourseStep dist g myCourse hostsBy
        (rsPrefix dist hostsBy g myCourse [.appetizer, .mainCourse])
        .dessert).hosts.get .dessert ∧
     (routeForTeam dist hostsBy g myCourse).distances.get .dessert =
      (routeCourseStep dist g myCourse hostsBy
        (rsPrefix dist hostsBy g myCourse [.appetizer, .mainCourse])
        .dessert).distances.get .dessert) := by
  have p3a := routeCourseStep_pres dist hostsBy g myCourse
    (rsPrefix dist hostsBy g myCourse [.appetizer, .mainCourse]) .dessert
    .appetizer (hne _) (by decide)
  have p2a := routeCourseStep_pres dist hostsBy g myCourse
    (rsPrefix dist hostsBy g myCourse [.appetizer]) .mainCourse
    .appetizer (hne _) (by decide)
  have p3m := routeCourseStep_pres dist hostsBy g myCourse
    (rsPrefix dist hostsBy g myCourse [.appetizer, .mainCourse]) .dessert
    .mainCourse (hne _) (by decide)
  exact ⟨⟨p3a.1.trans p2a.1, p3a.2.trans p2a.2⟩, ⟨p3m.1, p3m.2⟩, ⟨rfl, rfl⟩⟩

/-- **C3.**  Route re-threading: provided every course has a host, each
team's stored leg for a course it hosts is the distance from its previous
course location back home (0 when already home); for a course it does not
host the stored leg is the distance from the previous course location to the
chosen host, which minimises that distance over the hosts of the course; and
the per-team total is the sum of the three legs. -/
theorem c3_route_threading (dist : TDist) (hostsBy : Course → List Team)
    (g : Team) (myCourse : Course) (hne : ∀ c, hostsBy c ≠ []) :
    legSpecHolds dist hostsBy g myCourse
      (rsPrefix dist hostsBy g myCourse [])
      (routeForTeam dist hostsBy g myCourse) .appetizer ∧
    legSpecHolds dist hostsBy g myCourse
      (rsPrefix dist hostsBy g myCourse [.appetizer])
      (routeForTeam dist hostsBy g myCourse) .mainCourse ∧
    legSpecHolds dist hostsBy g myCourse
      (rsPrefix dist hostsBy g myCourse [.appetizer, .mainCourse])
      (routeForTeam dist hostsBy g myCourse) .dessert ∧
    (routeForTeam dist hostsBy g myCourse).totalDistance =
      (routeForTeam dist hostsBy g myCourse).distances.get .appetizer +
      (routeForTeam dist hostsBy g myCourse).distances.get .mainCourse +
      (routeForTeam dist hostsBy g myCourse).distances.get .dessert := by
  obtain ⟨ga, gm, gd⟩ := routeForTeam_get dist hostsBy g myCourse hne
  have specA := routeCourseStep_spec dist hostsBy g myCourse
    (rsPrefix dist hostsBy g myCourse []) .appetizer (hne _)
  have specM := routeCourseStep_spec dist hostsBy g myCourse
    (rsPrefix dist hostsBy g myCourse [.appetizer]) .mainCourse (hne _)
  have specD := routeCourseStep_spec dist hostsBy g myCourse
    (rsPrefix dist hostsBy g myCourse [.appetizer, .mainCourse]) .dessert (hne _)
  refine ⟨⟨?_, ?_⟩, ⟨?_, ?_⟩, ⟨?_, ?_⟩, rfl⟩
  · intro hc
    rw [ga.1, ga.2, specA.1 hc]
    constructor <;> simp [CourseMap.get_set_same]
  · intro hc
    obtain ⟨h, hmem, heq, hmin⟩ := specA.2 hc
    refine ⟨h, ?_, hmem, ?_, hmin⟩
    · rw [ga.1, heq]; simp [CourseMap.get_set_same]
    · rw [ga.2, heq]; simp [CourseMap.get_set_same]
  · intro hc
    rw [gm.1, gm.2, specM.1 hc]
    constructor <;> simp [CourseMap.get_set_same]
  · intro hc
    obtain ⟨h, hmem, heq, hmin⟩ := specM.2 hc
    refine ⟨h, ?_, hmem, ?_, hmin⟩
    · rw [gm.1, heq]; simp [CourseMap.get_set_same]
    · rw [gm.2, heq]; simp [CourseMap.get_set_same]
  · intro hc
    rw [gd.1, gd.2, specD.1 hc]
    constructor <;> simp [CourseMap.get_set_same]
  · intro hc
    obtain ⟨h, hmem, heq, hmin⟩ := specD.2 hc
    refine ⟨h, ?_, hmem, ?_, hmin⟩
    · rw [gd.1, heq]; simp [CourseMap.get_set_same]
    · rw [gd.2, heq]; simp [CourseMap.get_set_same]

/-- Closed instance of `c3_route_threading`. -/
theorem c3_route_threading_witness :
    legSpecHolds exDivDist exDivHostsBy exDivG1 .mainCourse
      (rsPrefix exDivDist exDivHostsBy exDivG1 .mainCourse [])
      (routeForTeam exDivDist exDivHostsBy exDivG1 .mainCourse) .appetizer ∧
    (routeForTeam exDivDist exDivHostsBy exDivG1 .mainCourse).totalDistance =
      (routeForTeam exDivDist exDivHostsBy exDivG1
        .mainCourse).distances.get .appetizer +
      (routeForTeam exDivDist exDivHostsBy exDivG1
        .mainCourse).distances.get .mainCourse +
      (routeForTeam exDivDist exDivHostsBy exDivG1
        .mainCourse).distances.get .dessert :=
  ⟨(c3_route_threading exDivDist exDivHostsBy exDivG1 .mainCourse
      (by intro c; cases c <;> simp [exDivHostsBy])).1,
   (c3_route_threading exDivDist exDivHostsBy exDivG1 .mainCourse
      (by intro c; cases c <;> simp [exDivHostsBy])).2.2.2⟩

set_option maxRecDepth 40000 in
/-- **C4, counterexample.**  Host A has no placed guests yet and has met
guest 1 once before; host B is just far away.  The spec's score
`1000·meetings(guest, B ∪ {host}) + km` gives 1001 for A and 500 for B, so
the spec places the guest with B; the code's loop adds the host-meeting
penalty once per already-placed guest — zero times here — so the code scores
A at 1 km and places the guest with the host it already met. -/
theorem c4_counterexample :
    codeSelectionScore exScDist exScMeet exDivG1 exDivA [] = 1 ∧
    specSelectionScore exScDist exScMeet exDivG1 exDivA [] = 1001 ∧
    codeSelectionScore exScDist exScMeet exDivG1 exDivA [] ≠
      specSelectionScore exScDist exScMeet exDivG1 exDivA [] ∧
    chooseHost exScDist exScMeet (fun _ => []) 1 0 [exDivA, exDivB] exDivG1 =
      some (exDivA, 1) ∧
    specSelectionScore exScDist exScMeet exDivG1 exDivB [] <
      specSelectionScore exScDist exScMeet exDivG1 exDivA [] := by
  with_unfolding_all decide

/-- **C4, amended.**  The code's selection score is
`1000·Σ_{eg ∈ existing} meetings(guest, eg) + 1000·|existing|·meetings(guest,
host) + km(guest, host)` — the host-meeting count is weighted by the number
of already-placed guests (in particular it is ignored while the host has no
guests) instead of being counted once.  The guest is placed with a host of
minimal such score among hosts with remaining target capacity, and after
placement the pair counters of exactly the newly formed pairs are
incremented by one. -/
theorem c4_diversity_scoring :
    (∀ (dist : TDist) (meetings : Meet) (g h : Team) (existing : List Team),
      codeSelectionScore dist meetings g h existing =
        1000 * ((existing.map
            (fun eg => (meetings (pairKey g.id eg.id) : ℚ))).sum)
        + 1000 * existing.length * (meetings (pairKey g.id h.id) : ℚ)
        + dist g.id h.id) ∧
    (∀ (dist : TDist) (meetings : Meet) (gph : Nat → List Team)
      (base extra : Nat) (hostTeams : List Team) (g h : Team) (sc : ℚ),
      chooseHost dist meetings gph base extra hostTeams g = some (h, sc) →
      sc = codeSelectionScore dist meetings g h (gph h.id) ∧
      (∃ ih ∈ hostTeams.enum, ih.2 = h ∧
        (gph h.id).length < base + (if ih.1 < extra then 1 else 0)) ∧
      ∀ ih ∈ hostTeams.enum,
        (gph ih.2.id).length < base + (if ih.1 < extra then 1 else 0) →
        sc ≤ codeSelectionScore dist meetings g ih.2 (gph ih.2.id)) ∧
    (∀ (dist : TDist) (base extra : Nat) (hostTeams : List Team)
      (st : (Nat → List Team) × Meet) (g h : Team) (sc : ℚ),
      chooseHost dist st.2 st.1 base extra hostTeams g = some (h, sc) →
      placeGuest dist base extra hostTeams st g =
        (fun i => if i = h.id then st.1 i ++ [g] else st.1 i,
         updateMeetings st.2 g h
           ((fun i => if i = h.id then st.1 i ++ [g] else st.1 i) h.id))) ∧
    (∀ (m : Meet) (g h : Team) (gl : List Team) (k : Nat × Nat),
      updateMeetings m g h gl k =
        m k + (gl.filter (fun eg =>
          decide (eg.id ≠ g.id) && decide (pairKey g.id eg.id = k))).length +
        (if k = pairKey g.id h.id then 1 else 0)) := by
  refine ⟨?_, ?_, ?_, updateMeetings_spec⟩
  · intro dist meetings g h existing
    unfold codeSelectionScore diversityPenalty
    rw [diversityPenalty_closed]
    ring
  · intro dist meetings gph base extra hostTeams g h sc hch
    rw [chooseHost_eq_scan] at hch
    obtain ⟨p, hp, hproj⟩ := Option.map_eq_some'.mp hch
    have hfst : p.1.2 = h := congrArg Prod.fst hproj
    have hsnd : p.2 = sc := congrArg Prod.snd hproj
    subst hfst
    subst hsnd
    obtain ⟨hmem, helig, hscore, hmin⟩ := bestMinScan_spec _ _ _ _ _ hp
    refine ⟨(Option.some_injective _ hscore).symm,
      ⟨p.1, hmem, rfl, by simpa using helig⟩, ?_⟩
    intro ih hih hcap
    exact hmin ih hih (by simpa using hcap) _ rfl
  · intro dist base extra hostTeams st g h sc hch
    simp [placeGuest, hch]

/-- Closed instance of `c4_diversity_scoring`. -/
theorem c4_diversity_scoring_witness :
    (1 : ℚ) = codeSelectionScore exScDist exScMeet exDivG1 exDivA
      ((fun _ => ([] : List Team)) exDivA.id) ∧
    (∃ ih ∈ [exDivA, exDivB].enum, ih.2 = exDivA ∧
      ((fun _ => ([] : List Team)) exDivA.id).length <
        1 + (if ih.1 < 0 then 1 else 0)) ∧
    (∀ ih ∈ [exDivA, exDivB].enum,
      ((fun _ => ([] : List Team)) ih.2.id).length <
        1 + (if ih.1 < 0 then 1 else 0) →
      (1 : ℚ) ≤ codeSelectionScore exScDist exScMeet exDivG1 ih.2
        ((fun _ => ([] : List Team)) ih.2.id)) :=
  (c4_diversity_scoring).2.1 exScDist exScMeet (fun _ => []) 1 0
    [exDivA, exDivB] exDivG1 exDivA 1 (by with_unfolding_all decide)

/-- **C8.**  Phase B's shuffle is the only input the diversity phase takes
from the RNG; the source draws it from the process-global unseeded RNG
(`random.shuffle(guest_teams_copy)`) and never seeds by the event id.  With
the same event data, the identity draw and the reversal draw — both
permutations of the loaded guest order — produce different guest groupings,
so two executions are not reproducible. -/
theorem c8_shuffle_dependence :
    (optimizeTeamDiversity exDivDist exDivTeams exDivHostsBy exDivHosting
        exShuffleId).1 10 = [exDivG1] ∧
    (optimizeTeamDiversity exDivDist exDivTeams exDivHostsBy exDivHosting
        exShuffleRev).1 10 = [exDivG2] ∧
    (exShuffleRev .appetizer [exDivG1, exDivG2]).Perm [exDivG1, exDivG2] ∧
    exDivG1 ≠ exDivG2 := by
  with_unfolding_all decide

/-- **C6, counterexample.**  A guest visit 10 km from the host, a feasible
kitchen 1 km away (saving 9 km ≥ 3 km): the opportunistic pass records the
kitchen usage, yet the stored leg stays 10 km and the per-team total is
unchanged — the claim's "stored leg ... updated to reflect the kitchen
distance" (which would make it 1 km) is false. -/
theorem c6_counterexample :
    (∀ b ∈ exOppRes,
      b.guestKitchenUsage.get .appetizer =
        some { kitchen := exKitchen1, distanceSavings := 9,
               originalHost := exHostT } ∧
      b.distances = exOppAssign.distances ∧
      b.totalDistance = exOppAssign.totalDistance) ∧
    exOppRes.length = 1 ∧
    exOppKDist exTeamA.id exKitchen1.id = some 1 ∧
    exOppAssign.distances.get .appetizer = 10 ∧
    (10 : ℚ) ≠ 1 := by with_unfolding_all decide

/-- **C6, amended.**  The opportunistic pass re-routes a guest visit to a
kitchen exactly when a feasible kitchen (course allowed — already filtered
into `avail` —, remaining capacity) saves at least 3.0 km against the
guest's HOME-to-host distance, recording the kitchen of maximal savings in
`guest_kitchen_usage` with the host role unchanged; it never changes any
assignment's hosts, stored legs or per-team total. -/
theorem c6_opportunistic_rerouting (dist : TDist) (kdist : KDist)
    (kitchens : List Kitchen) (usage0 : Course → Nat → Nat)
    (assigns : List SAssign) :
    List.Forall₂ SameRoute assigns
      (assignGuestKitchensOpportunistic dist kdist kitchens usage0 assigns) ∧
    (∀ (usage : Nat → Nat) (avail : List Kitchen) (t : Team) (orig : ℚ)
      (k : Kitchen) (sav : ℚ),
      bestOpportunisticKitchen kdist usage avail t orig = some (k, sav) →
      k ∈ avail ∧ usage k.id < k.maxTeams ∧
      (∃ d, kdist t.id k.id = some d ∧ sav = orig - d) ∧ 3 ≤ sav ∧
      ∀ k1 ∈ avail, usage k1.id < k1.maxTeams → ∀ d1,
        kdist t.id k1.id = some d1 → 3 ≤ orig - d1 → orig - d1 ≤ sav) ∧
    (∀ (usage : Nat → Nat) (avail : List Kitchen) (t : Team) (orig : ℚ),
      bestOpportunisticKitchen kdist usage avail t orig = none →
      ∀ k1 ∈ avail, usage k1.id < k1.maxTeams → ∀ d1,
        kdist t.id k1.id = some d1 → orig - d1 < 3) ∧
    (∀ (avail : List Kitchen) (course : Course)
      (st : List SAssign × (Nat → Nat)) (a : SAssign) (host : Team)
      (k : Kitchen) (sav : ℚ),
      ¬ a.courseHosted = course → a.hosts.get course = some host →
      bestOpportunisticKitchen kdist st.2 avail a.team
          (dist a.team.id host.id) = some (k, sav) →
      oppCourseStep dist kdist avail course st a =
        (st.1 ++ [{ a with guestKitchenUsage :=
            (a.guestKitchenUsage.set course
              (some { kitchen := k, distanceSavings := sav,
                      originalHost := host })) }],
         bumpUsage st.2 k.id)) ∧
    (∀ (avail : List Kitchen) (course : Course)
      (st : List SAssign × (Nat → Nat)) (a : SAssign) (host : Team),
      ¬ a.courseHosted = course → a.hosts.get course = some host →
      bestOpportunisticKitchen kdist st.2 avail a.team
          (dist a.team.id host.id) = none →
      oppCourseStep dist kdist avail course st a = (st.1 ++ [a], st.2)) := by
  refine ⟨assignGKOpp_forall2 dist kdist kitchens usage0 assigns, ?_, ?_, ?_, ?_⟩
  · intro usage avail t orig k sav h
    rw [bestOpportunisticKitchen_eq_scan] at h
    obtain ⟨hmem, helig, hscore, hok, _, hdom⟩ := bestMaxScan_spec _ _ _ _ _ _ h
    refine ⟨hmem, by simpa using helig, ?_, hok, ?_⟩
    · cases hkd : kdist t.id k.id with
      | none => rw [hkd] at hscore; cases hscore
      | some d =>
        rw [hkd] at hscore
        exact ⟨d, rfl, (Option.some_injective _ hscore).symm⟩
    · intro k1 hk1 hc1 d1 hd1 h31
      exact hdom k1 hk1 (by simpa using hc1) (orig - d1) (by simp [hd1]) h31
  · intro usage avail t orig h
    rw [bestOpportunisticKitchen_eq_scan] at h
    intro k1 hk1 hc1 d1 hd1
    by_contra hge
    have h3 : 3 ≤ orig - d1 := le_of_not_lt hge
    have := bestMaxScan_none _ _ _ _ h k1 hk1 (by simpa using hc1)
      (orig - d1) (by simp [hd1]) h3
    linarith
  · intro avail course st a host k sav h1 h2 h3
    simp [oppCourseStep, h1, h2, h3]
  · intro avail course st a host h1 h2 h3
    simp [oppCourseStep, h1, h2, h3]

/-- Closed instance of `c6_opportunistic_rerouting`. -/
theorem c6_opportunistic_rerouting_witness :
    exKitchen1 ∈ [exKitchen1] ∧
    (fun _ : Nat => 0) exKitchen1.id < exKitchen1.maxTeams ∧
    (∃ d, exOppKDist exTeamA.id exKitchen1.id = some d ∧ (9 : ℚ) = 10 - d) ∧
    (3 : ℚ) ≤ 9 ∧
    (∀ k1 ∈ [exKitchen1], (fun _ : Nat => 0) k1.id < k1.maxTeams → ∀ d1,
      exOppKDist exTeamA.id k1.id = some d1 → 3 ≤ 10 - d1 → 10 - d1 ≤ 9) :=
  (c6_opportunistic_rerouting exOppDist exOppKDist [exKitchen1]
      (fun _ _ => 0) [exOppAssign]).2.1
    (fun _ => 0) [exKitchen1] exTeamA 10 exKitchen1 9
    (by with_unfolding_all decide)

/-- Closed instance of `c10_afterparty_extension`. -/
theorem c10_afterparty_extension_witness :
    (addAfterpartyRoutes exApDist exApSol).afterpartyStats =
      some { totalDistance :=
               (exApSol.assignments.map (fun a => (exApDist (lastLocation a)).getD 0)).sum
             averageDistance :=
               (exApSol.assignments.map (fun a => (exApDist (lastLocation a)).getD 0)).sum /
                 (exApSol.assignments.length : ℚ)
             teamsCount := exApSol.assignments.length } :=
  (c10_afterparty_extension exApDist exApSol (by decide) (by decide)).2.2

/-- Specification of `findGuestToMove`: the returned guest sits at the
overloaded host, the value is its home-to-host improvement, positive and
maximal among that host's guests. -/
theorem findGuestToMove_spec (dist : TDist) (gph : Nat → List Team)
    (O U g : Team) (imp : ℚ)
    (h : findGuestToMove dist gph O U = some (g, imp)) :
    g ∈ gph O.id ∧ imp = dist g.id O.id - dist g.id U.id ∧ 0 < imp ∧
    ∀ g1 ∈ gph O.id, dist g1.id O.id - dist g1.id U.id ≤ imp := by
  rw [findGuestToMove_eq_scan] at h
  obtain ⟨hmem, _, hscore, _, hpos, hdom⟩ := bestMaxScan_spec _ _ _ _ _ _ h
  exact ⟨hmem, (Option.some.inj hscore).symm, hpos,
    fun g1 hg1 => hdom g1 hg1 rfl _ rfl trivial⟩

/-- `updateFirstAssign` rewrites exactly the first record of the matching
team and keeps every other record unchanged. -/
theorem updateFirstAssign_decomp (gid : Nat) (f : SAssign → SAssign) :
    ∀ (l1 : List SAssign) (a : SAssign) (l2 : List SAssign),
      (∀ b ∈ l1, ¬ b.team.id = gid) → a.team.id = gid →
      updateFirstAssign (l1 ++ a :: l2) gid f = l1 ++ f a :: l2 := by
  intro l1
  induction l1 with
  | nil =>
    intro a l2 _ ha
    simp [updateFirstAssign, ha]
  | cons b t ih =>
    intro a l2 hl1 ha
    have hb : ¬ b.team.id = gid := hl1 b (List.mem_cons_self b t)
    simp only [List.cons_append, updateFirstAssign, if_neg hb, List.append_eq]
    rw [ih a l2 (fun x hx => hl1 x (List.mem_cons_of_mem b hx)) ha]

/-- Field-level description of `applyMove`: the moved guest's first record
gets the course host, the stored leg (overwritten with the caller's
`new_distance` value) and the total rewritten, and the guest changes host
lists. -/
theorem applyMove_spec (course : Course) (O U g : Team) (nd : ℚ)
    (st : ImpState) (l1 : List SAssign) (a : SAssign) (l2 : List SAssign)
    (hsplit : st.assignments = l1 ++ a :: l2)
    (hl1 : ∀ b ∈ l1, ¬ b.team.id = g.id) (ha : a.team.id = g.id) :
    (applyMove course O U g nd st).assignments =
      l1 ++ { a with
              hosts := (a.hosts.set course (some U))
              distances := (a.distances.set course nd)
              totalDistance := (a.totalDistance +
                (nd - a.distances.get course)) } :: l2 ∧
    (applyMove course O U g nd st).gph O.id = (st.gph O.id).erase g ∧
    (¬ U.id = O.id → (applyMove course O U g nd st).gph U.id =
      st.gph U.id ++ [g]) := by
  refine ⟨?_, ?_, ?_⟩
  · simp only [applyMove]
    rw [hsplit, updateFirstAssign_decomp g.id _ l1 a l2 hl1 ha]
  · simp [applyMove]
  · intro hU
    simp [applyMove, hU]

/-- A successful inner pair loop is exactly one `findGuestToMove` pick that
clears the `0.1` threshold, applied to the incoming state with the stale
`new_distance` of the last-scanned guest. -/
theorem pairLoopInner_spec (dist : TDist) (course : Course) (O : Team) :
    ∀ (us : List Team) (st st2 : ImpState),
      pairLoopInner dist course O us st = some st2 →
      ∃ U ∈ us, ∃ g imp, findGuestToMove dist st.gph O U = some (g, imp) ∧
        imp > 1/10 ∧
        st2 = applyMove course O U g (staleNewDistance dist st.gph O U) st := by
  intro us
  induction us with
  | nil =>
    intro st st2 h
    exact Option.noConfusion h
  | cons U ut ih =>
    intro st st2 h
    cases hf : findGuestToMove dist st.gph O U with
    | some gi =>
      by_cases hthr : gi.2 > 1/10
      · have hval : pairLoopInner dist course O (U :: ut) st =
            some (applyMove course O U gi.1
              (staleNewDistance dist st.gph O U) st) := by
          simp only [pairLoopInner, hf]
          rw [if_pos hthr]
        rw [hval] at h
        injection h with h2
        exact ⟨U, List.mem_cons_self U ut, gi.1, gi.2, by rw [hf], hthr, h2.symm⟩
      · have hval : pairLoopInner dist course O (U :: ut) st =
            pairLoopInner dist course O ut st := by
          simp only [pairLoopInner, hf]
          rw [if_neg hthr]
        rw [hval] at h
        obtain ⟨U2, hU2, g, imp, hfg, ht2, hst2⟩ := ih st st2 h
        exact ⟨U2, List.mem_cons_of_mem U hU2, g, imp, hfg, ht2, hst2⟩
    | none =>
      have hval : pairLoopInner dist course O (U :: ut) st =
          pairLoopInner dist course O ut st := by
        simp [pairLoopInner, hf]
      rw [hval] at h
      obtain ⟨U2, hU2, g, imp, hfg, ht2, hst2⟩ := ih st st2 h
      exact ⟨U2, List.mem_cons_of_mem U hU2, g, imp, hfg, ht2, hst2⟩

/-- Once a pass reports no improvement, the loop returns that pass's state
regardless of the remaining fuel. -/
theorem improveLoop_stop (dist : TDist) (hostsBy : Course → List Team)
    (teams : List Team) (st st2 : ImpState)
    (h : improvePass dist hostsBy teams st = (st2, false)) (n : Nat) :
    improveLoop dist hostsBy teams (n + 1) st = st2 := by
  simp [improveLoop, h]

/-- The loop executes at most as many passes as it is given fuel. -/
theorem passCount_le (dist : TDist) (hostsBy : Course → List Team)
    (teams : List Team) : ∀ n st, passCount dist hostsBy teams n st ≤ n := by
  intro n
  induction n with
  | zero =>
    intro st
    simp [passCount]
  | succ n ih =>
    intro st
    simp only [passCount]
    split
    · exact Nat.succ_le_succ (ih _)
    · omega

set_option maxRecDepth 40000 in
/-- C5 counterexample.  On the fixture the pass moves guest 1 from host A to
host B because its home-to-host distances improve by 4 km, yet its stored
appetizer leg rises from `0.5` to `0.75` km — the move increases the
course-leg distance, because the code compares home-based distances, not
the stored re-threaded legs — and `0.75` is not even guest 1's own
home-to-B distance (1 km): it is the stale `new_distance` of guest 2, the
last guest examined by the scan. -/
theorem c5_counterexample :
    exImpAssignG.hosts.get .appetizer = some exDivA ∧
    exImpAssignG.distances.get .appetizer = 1/2 ∧
    (∀ b ∈ exImpRes.assignments, b.team.id = 1 →
      b.hosts.get .appetizer = some exDivB ∧
      b.distances.get .appetizer = 3/4 ∧
      b.totalDistance = 3/4) ∧
    exImpDist 1 11 = 1 ∧
    exImpDist 2 11 = 3/4 ∧
    ((1/2 : ℚ) < 3/4) ∧
    exImpRes.objectiveValue = 7/4 := by
  with_unfolding_all decide

/-- C5.  Phase D as the code implements it: `improveGuestDistribution` runs
the pass loop with fuel 3 (the `max_iterations` default) and recomputes the
objective as the sum of per-team totals; the loop never executes more passes
than its fuel and stops as soon as a pass reports no improvement; a
successful inner pair loop applies the first qualifying move, whose guest
maximises the (positive, above-0.1) home-to-overloaded minus
home-to-underloaded distance among the overloaded host's guests; the applied
move overwrites the guest's stored course leg with the stale `new_distance`
of the last guest the scan examined, shifts its total by the difference and
moves it between the host lists. -/
theorem c5_guest_redistribution (dist : TDist) (hostsBy : Course → List Team)
    (teams : List Team) :
    (∀ sol gph, improveGuestDistribution dist hostsBy teams sol gph =
      { assignments := (improveLoop dist hostsBy teams 3
          ⟨sol.assignments, gph⟩).assignments
        objectiveValue := (((improveLoop dist hostsBy teams 3
          ⟨sol.assignments, gph⟩).assignments.map
            (fun a => a.totalDistance)).sum)
        afterpartyStats := sol.afterpartyStats }) ∧
    (∀ n st, passCount dist hostsBy teams n st ≤ n) ∧
    (∀ st st2, improvePass dist hostsBy teams st = (st2, false) →
      ∀ n, improveLoop dist hostsBy teams (n + 1) st = st2) ∧
    (∀ gph O U g imp, findGuestToMove dist gph O U = some (g, imp) →
      g ∈ gph O.id ∧ imp = dist g.id O.id - dist g.id U.id ∧ 0 < imp ∧
      ∀ g1 ∈ gph O.id, dist g1.id O.id - dist g1.id U.id ≤ imp) ∧
    (∀ course O us st st2, pairLoopInner dist course O us st = some st2 →
      ∃ U ∈ us, ∃ g imp, findGuestToMove dist st.gph O U = some (g, imp) ∧
        imp > 1/10 ∧
        st2 = applyMove course O U g (staleNewDistance dist st.gph O U) st) ∧
    (∀ course O U g (nd : ℚ) st (l1 : List SAssign) a l2,
      st.assignments = l1 ++ a :: l2 →
      (∀ b ∈ l1, ¬ b.team.id = g.id) → a.team.id = g.id →
      (applyMove course O U g nd st).assignments =
        l1 ++ { a with
                hosts := (a.hosts.set course (some U))
                distances := (a.distances.set course nd)
                totalDistance := (a.totalDistance +
                  (nd - a.distances.get course)) } :: l2 ∧
      (applyMove course O U g nd st).gph O.id = (st.gph O.id).erase g ∧
      (¬ U.id = O.id → (applyMove course O U g nd st).gph U.id =
        st.gph U.id ++ [g])) := by
  refine ⟨fun sol gph => rfl, passCount_le dist hostsBy teams, ?_, ?_, ?_, ?_⟩
  · intro st st2 h n
    exact improveLoop_stop dist hostsBy teams st st2 h n
  · intro gph O U g imp h
    exact findGuestToMove_spec dist gph O U g imp h
  · intro course O us st st2 h
    exact pairLoopInner_spec dist course O us st st2 h
  · intro course O U g nd st l1 a l2 hsplit hl1 ha
    exact applyMove_spec course O U g nd st l1 a l2 hsplit hl1 ha

/-- Witness for C5: on the fixture, `findGuestToMove` for the pair (A, B)
returns guest 1 with improvement 4, which is maximal among A's guests. -/
theorem c5_guest_redistribution_witness :
    exDivG1 ∈ exImpGph exDivA.id ∧
    (4 : ℚ) = exImpDist exDivG1.id exDivA.id -
      exImpDist exDivG1.id exDivB.id ∧
    (0 : ℚ) < 4 ∧
    ∀ g1 ∈ exImpGph exDivA.id,
      exImpDist g1.id exDivA.id - exImpDist g1.id exDivB.id ≤ 4 :=
  (c5_guest_redistribution exImpDist exDivHostsBy exDivTeams).2.2.2.1
    exImpGph exDivA exDivB exDivG1 4 (by with_unfolding_all decide)

/-- Reading an insert at its own key. -/
theorem DistMap.insert_self (m : DistMap) (k : Nat × Nat) (v : ℚ) :
    m.insert k v k = some v := by
  simp [DistMap.insert]

/-- Reading an insert at another key. -/
theorem DistMap.insert_ne (m : DistMap) (k k2 : Nat × Nat) (v : ℚ)
    (h : ¬ k2 = k) : m.insert k v k2 = m k2 := by
  simp [DistMap.insert, h]

/-- A fold preserves any property each step preserves over acceptable
elements. -/
theorem foldl_inv {α β : Type} (f : β → α → β) (P : β → Prop) (Q : α → Prop)
    (hstep : ∀ b a, Q a → P b → P (f b a)) :
    ∀ (l : List α) (b : β), (∀ a ∈ l, Q a) → P b → P (l.foldl f b) := by
  intro l
  induction l with
  | nil =>
    intro b _ hb
    exact hb
  | cons a t ih =>
    intro b hl hb
    rw [List.foldl_cons]
    exact ih (f b a) (fun x hx => hl x (List.mem_cons_of_mem a hx))
      (hstep b a (hl a (List.mem_cons_self a t)) hb)

/-- A member of the enumerated pair list reads both teams off the list at
its two indices. -/
theorem mem_enumPairs {teams : List Nat} {p : (Nat × Nat) × (Nat × Nat)}
    (h : p ∈ enumPairs teams) :
    teams[p.1.1]? = some p.1.2 ∧ teams[p.2.1]? = some p.2.2 := by
  obtain ⟨a, ha, hb⟩ := List.mem_flatMap.mp h
  obtain ⟨b, hbmem, hpe⟩ := List.mem_map.mp hb
  subst hpe
  exact ⟨List.mem_enum_iff_getElem?.mp ha, List.mem_enum_iff_getElem?.mp hbmem⟩

/-- Every ordered pair of teams appears in the enumerated pair list. -/
theorem enumPairs_mem_of_getElem {teams : List Nat} {i j : Nat} {t1 t2 : Nat}
    (h1 : teams[i]? = some t1) (h2 : teams[j]? = some t2) :
    ((i, t1), (j, t2)) ∈ enumPairs teams := by
  exact List.mem_flatMap.mpr ⟨(i, t1), List.mem_enum_iff_getElem?.mpr h1,
    List.mem_map.mpr ⟨(j, t2), List.mem_enum_iff_getElem?.mpr h2, rfl⟩⟩

/-- On a duplicate-free team list, index equality of a loop pair mirrors id
equality. -/
theorem enumPairs_prop {teams : List Nat} (hnd : teams.Nodup)
    {p : (Nat × Nat) × (Nat × Nat)} (hp : p ∈ enumPairs teams) :
    (p.1.1 = p.2.1 → p.1.2 = p.2.2) ∧ (¬ p.1.1 = p.2.1 → ¬ p.1.2 = p.2.2) := by
  obtain ⟨h1, h2⟩ := mem_enumPairs hp
  constructor
  · intro hij
    rw [hij, h2] at h1
    exact (Option.some.inj h1).symm
  · intro hij ht
    have h3 : teams[p.1.1]? = teams[p.2.1]? := by rw [h1, ht, h2]
    have hlt : p.1.1 < teams.length := by
      by_contra hge
      rw [List.getElem?_eq_none (Nat.le_of_not_lt hge)] at h1
      exact Option.noConfusion h1
    exact hij (List.getElem?_inj hlt hnd h3)

/-- Branch description of one `tdStep`. -/
theorem tdStep_cases (oracle : Coord → Coord → Option ℚ)
    (coords : Nat → Option Coord) (m : DistMap)
    (p : (Nat × Nat) × (Nat × Nat)) :
    (p.1.1 = p.2.1 ∧
      tdStep oracle coords m p = m.insert (p.1.2, p.2.2) 0) ∨
    (¬ p.1.1 = p.2.1 ∧ ∃ v, m (p.2.2, p.1.2) = some v ∧
      tdStep oracle coords m p = m.insert (p.1.2, p.2.2) v) ∨
    (¬ p.1.1 = p.2.1 ∧ m (p.2.2, p.1.2) = none ∧ ∃ x : ℚ,
      (x = 5/2 ∨ x = 3 ∨ ∃ c1 c2, coords p.1.2 = some c1 ∧
        coords p.2.2 = some c2 ∧ oracle c1 c2 = some x) ∧
      tdStep oracle coords m p =
        (m.insert (p.1.2, p.2.2) x).insert (p.2.2, p.1.2) x) := by
  obtain ⟨⟨i, t1⟩, j, t2⟩ := p
  by_cases hij : i = j
  · exact .inl ⟨hij, by simp [tdStep, hij]⟩
  · refine .inr ?_
    cases hv : m (t2, t1) with
    | some v =>
      exact .inl ⟨hij, v, rfl, by simp [tdStep, hij, hv]⟩
    | none =>
      refine .inr ⟨hij, rfl, ?_⟩
      cases hc1 : coords t1 with
      | none =>
        exact ⟨3, .inr (.inl rfl), by simp [tdStep, hij, hv, hc1]⟩
      | some c1 =>
        cases hc2 : coords t2 with
        | none =>
          exact ⟨3, .inr (.inl rfl), by simp [tdStep, hij, hv, hc1, hc2]⟩
        | some c2 =>
          cases hd : oracle c1 c2 with
          | none =>
            exact ⟨5/2, .inl rfl, by simp [tdStep, hij, hv, hc1, hc2, hd]⟩
          | some d =>
            by_cases hdz : d ≠ 0
            · exact ⟨d, .inr (.inr ⟨c1, c2, rfl, rfl, hd⟩), by
                simp [tdStep, hij, hv, hc1, hc2, hd, hdz]⟩
            · exact ⟨5/2, .inl rfl, by
                simp [tdStep, hij, hv, hc1, hc2, hd, hdz]⟩

/-- A diagonal write keeps the matrix symmetric. -/
theorem insert_diag_sym (m : DistMap) (t : Nat) (v : ℚ)
    (hsym : ∀ a b, m (a, b) = m (b, a)) (a b : Nat) :
    m.insert (t, t) v (a, b) = m.insert (t, t) v (b, a) := by
  simp only [DistMap.insert, Prod.mk.injEq]
  by_cases h : a = t ∧ b = t
  · rw [if_pos h, if_pos ⟨h.2, h.1⟩]
  · rw [if_neg h, if_neg (fun hh => h ⟨hh.2, hh.1⟩)]
    exact hsym a b

/-- The symmetric double write keeps the matrix symmetric. -/
theorem insert2_sym (m : DistMap) (t1 t2 : Nat) (x : ℚ)
    (hsym : ∀ a b, m (a, b) = m (b, a)) (a b : Nat) :
    (m.insert (t1, t2) x).insert (t2, t1) x (a, b) =
    (m.insert (t1, t2) x).insert (t2, t1) x (b, a) := by
  simp only [DistMap.insert, Prod.mk.injEq]
  by_cases h1 : a = t2 ∧ b = t1
  · rw [if_pos h1]
    by_cases h1' : b = t2 ∧ a = t1
    · rw [if_pos h1']
    · rw [if_neg h1', if_pos ⟨h1.2, h1.1⟩]
  · rw [if_neg h1]
    by_cases h2 : a = t1 ∧ b = t2
    · rw [if_pos h2, if_pos ⟨h2.2, h2.1⟩]
    · rw [if_neg h2, if_neg (fun hh => h2 ⟨hh.2, hh.1⟩),
        if_neg (fun hh => h1 ⟨hh.2, hh.1⟩)]
      exact hsym a b

/-- Copying the already-present mirror value keeps the matrix symmetric. -/
theorem insert_copy_sym (m : DistMap) (t1 t2 : Nat) (v : ℚ)
    (hv : m (t2, t1) = some v) (hsym : ∀ a b, m (a, b) = m (b, a))
    (a b : Nat) :
    m.insert (t1, t2) v (a, b) = m.insert (t1, t2) v (b, a) := by
  simp only [DistMap.insert, Prod.mk.injEq]
  by_cases h1 : a = t1 ∧ b = t2
  · rw [if_pos h1]
    by_cases h2 : b = t1 ∧ a = t2
    · rw [if_pos h2]
    · rw [if_neg h2, h1.1, h1.2]
      exact hv.symm
  · rw [if_neg h1]
    by_cases h2 : b = t1 ∧ a = t2
    · rw [if_pos h2, h2.1, h2.2]
      exact hv
    · rw [if_neg h2]
      exact hsym a b

/-- An off-diagonal write keeps the diagonal zero-or-absent. -/
theorem insert_diagz (m : DistMap) (k : Nat × Nat) (v : ℚ)
    (hk : ¬ k.1 = k.2) (hdiag : ∀ a, m (a, a) = none ∨ m (a, a) = some 0)
    (a : Nat) : m.insert k v (a, a) = none ∨ m.insert k v (a, a) = some 0 := by
  rw [DistMap.insert_ne m k (a, a) v (fun hh => hk (by rw [← hh]))]
  exact hdiag a

/-- Writing a non-negative value keeps every entry non-negative. -/
theorem insert_nonneg (m : DistMap) (k : Nat × Nat) (v : ℚ) (hv : 0 ≤ v)
    (hnn : ∀ a b w, m (a, b) = some w → 0 ≤ w) :
    ∀ a b w, m.insert k v (a, b) = some w → 0 ≤ w := by
  intro a b w h
  by_cases hk : (a, b) = k
  · rw [hk, DistMap.insert_self] at h
    rw [← Option.some.inj h]
    exact hv
  · rw [DistMap.insert_ne m k (a, b) v hk] at h
    exact hnn a b w h

/-- One `tdStep` preserves symmetry, the zero-or-absent diagonal and
non-negativity, for a loop pair whose index (in)equality mirrors id
(in)equality. -/
theorem tdStep_inv (oracle : Coord → Coord → Option ℚ)
    (coords : Nat → Option Coord)
    (hor : ∀ c1 c2 d, oracle c1 c2 = some d → 0 ≤ d)
    (m : DistMap) (p : (Nat × Nat) × (Nat × Nat))
    (hpe : p.1.1 = p.2.1 → p.1.2 = p.2.2)
    (hpn : ¬ p.1.1 = p.2.1 → ¬ p.1.2 = p.2.2)
    (hinv : (∀ a b, m (a, b) = m (b, a)) ∧
      (∀ a, m (a, a) = none ∨ m (a, a) = some 0) ∧
      (∀ a b v, m (a, b) = some v → 0 ≤ v)) :
    (∀ a b, tdStep oracle coords m p (a, b) =
      tdStep oracle coords m p (b, a)) ∧
    (∀ a, tdStep oracle coords m p (a, a) = none ∨
      tdStep oracle coords m p (a, a) = some 0) ∧
    (∀ a b v, tdStep oracle coords m p (a, b) = some v → 0 ≤ v) := by
  obtain ⟨hsym, hdiag, hnn⟩ := hinv
  rcases tdStep_cases oracle coords m p with ⟨hij, heq⟩ | ⟨hij, v, hv, heq⟩ |
    ⟨hij, hv, x, hx, heq⟩
  · have ht : p.1.2 = p.2.2 := hpe hij
    rw [heq, ← ht]
    refine ⟨insert_diag_sym m p.1.2 0 hsym, ?_, ?_⟩
    · intro a
      by_cases ha : (a, a) = (p.1.2, p.1.2)
      · rw [ha, DistMap.insert_self]
        exact .inr rfl
      · rw [DistMap.insert_ne m (p.1.2, p.1.2) (a, a) 0 ha]
        exact hdiag a
    · exact insert_nonneg m (p.1.2, p.1.2) 0 le_rfl hnn
  · have ht : ¬ p.1.2 = p.2.2 := hpn hij
    rw [heq]
    exact ⟨insert_copy_sym m p.1.2 p.2.2 v hv hsym,
      insert_diagz m (p.1.2, p.2.2) v ht hdiag,
      insert_nonneg m (p.1.2, p.2.2) v (hnn p.2.2 p.1.2 v hv) hnn⟩
  · have ht : ¬ p.1.2 = p.2.2 := hpn hij
    have hx0 : 0 ≤ x := by
      rcases hx with hx | hx | ⟨c1, c2, _, _, hd⟩
      · rw [hx]; norm_num
      · rw [hx]; norm_num
      · exact hor c1 c2 x hd
    rw [heq]
    refine ⟨insert2_sym m p.1.2 p.2.2 x hsym, ?_, ?_⟩
    · exact insert_diagz (m.insert (p.1.2, p.2.2) x) (p.2.2, p.1.2) x
        (fun hh => ht hh.symm)
        (insert_diagz m (p.1.2, p.2.2) x ht hdiag)
    · exact insert_nonneg (m.insert (p.1.2, p.2.2) x) (p.2.2, p.1.2) x hx0
        (insert_nonneg m (p.1.2, p.2.2) x hx0 hnn)

/-- No `tdStep` ever removes a present key. -/
theorem tdStep_mono (oracle : Coord → Coord → Option ℚ)
    (coords : Nat → Option Coord) (m : DistMap)
    (p : (Nat × Nat) × (Nat × Nat)) (k : Nat × Nat)
    (h : (m k).isSome) : ((tdStep oracle coords m p) k).isSome := by
  have hins : ∀ (m2 : DistMap) (k0 : Nat × Nat) (v : ℚ), (m2 k).isSome →
      ((m2.insert k0 v) k).isSome := by
    intro m2 k0 v h2
    by_cases hk : k = k0
    · rw [hk, DistMap.insert_self]
      rfl
    · rw [DistMap.insert_ne m2 k0 k v hk]
      exact h2
  rcases tdStep_cases oracle coords m p with ⟨_, heq⟩ | ⟨_, v, _, heq⟩ |
    ⟨_, _, x, _, heq⟩
  · rw [heq]
    exact hins m _ _ h
  · rw [heq]
    exact hins m _ _ h
  · rw [heq]
    exact hins _ _ _ (hins m _ _ h)

/-- The step that processes a loop pair makes its forward key present. -/
theorem tdStep_establish (oracle : Coord → Coord → Option ℚ)
    (coords : Nat → Option Coord) (m : DistMap)
    (p : (Nat × Nat) × (Nat × Nat)) :
    ((tdStep oracle coords m p) (p.1.2, p.2.2)).isSome := by
  rcases tdStep_cases oracle coords m p with ⟨_, heq⟩ | ⟨_, v, _, heq⟩ |
    ⟨_, _, x, _, heq⟩
  · rw [heq, DistMap.insert_self]
    rfl
  · rw [heq, DistMap.insert_self]
    rfl
  · rw [heq]
    by_cases hk : (p.1.2, p.2.2) = (p.2.2, p.1.2)
    · rw [hk, DistMap.insert_self]
      rfl
    · rw [DistMap.insert_ne _ _ _ x hk, DistMap.insert_self]
      rfl

/-- Later steps keep an established zero diagonal entry. -/
theorem tdStep_diag_pres (oracle : Coord → Coord → Option ℚ)
    (coords : Nat → Option Coord) (m : DistMap)
    (p : (Nat × Nat) × (Nat × Nat))
    (hpe : p.1.1 = p.2.1 → p.1.2 = p.2.2)
    (hpn : ¬ p.1.1 = p.2.1 → ¬ p.1.2 = p.2.2)
    (t : Nat) (h : m (t, t) = some 0) :
    tdStep oracle coords m p (t, t) = some 0 := by
  rcases tdStep_cases oracle coords m p with ⟨hij, heq⟩ | ⟨hij, v, hv, heq⟩ |
    ⟨hij, hv, x, hx, heq⟩
  · rw [heq]
    by_cases hk : (t, t) = (p.1.2, p.2.2)
    · rw [hk, DistMap.insert_self]
    · rw [DistMap.insert_ne m _ _ 0 hk]
      exact h
  · have ht := hpn hij
    rw [heq, DistMap.insert_ne m _ _ v (fun hh => ht (by
      injection hh with h1 h2
      rw [← h1]
      exact h2))]
    exact h
  · have ht := hpn hij
    rw [heq, DistMap.insert_ne _ _ _ x (fun hh => ht (by
      injection hh with h1 h2
      rw [← h2]
      exact h1)),
      DistMap.insert_ne m _ _ x (fun hh => ht (by
      injection hh with h1 h2
      rw [← h1]
      exact h2))]
    exact h

/-- The computed matrix is symmetric everywhere, has a zero-or-absent
diagonal and only non-negative entries. -/
theorem ctd_inv (oracle : Coord → Coord → Option ℚ)
    (coords : Nat → Option Coord) (teams : List Nat) (hnd : teams.Nodup)
    (hor : ∀ c1 c2 d, oracle c1 c2 = some d → 0 ≤ d) :
    (∀ a b, calculateTeamDistances oracle coords teams (a, b) =
      calculateTeamDistances oracle coords teams (b, a)) ∧
    (∀ a, calculateTeamDistances oracle coords teams (a, a) = none ∨
      calculateTeamDistances oracle coords teams (a, a) = some 0) ∧
    (∀ a b v, calculateTeamDistances oracle coords teams (a, b) = some v →
      0 ≤ v) :=
  foldl_inv (tdStep oracle coords)
    (fun m => (∀ a b, m (a, b) = m (b, a)) ∧
      (∀ a, m (a, a) = none ∨ m (a, a) = some 0) ∧
      (∀ a b v, m (a, b) = some v → 0 ≤ v))
    (fun p => (p.1.1 = p.2.1 → p.1.2 = p.2.2) ∧
      (¬ p.1.1 = p.2.1 → ¬ p.1.2 = p.2.2))
    (fun m p hq hm => tdStep_inv oracle coords hor m p hq.1 hq.2 hm)
    (enumPairs teams) (fun _ => none)
    (fun p hp => enumPairs_prop hnd hp)
    ⟨fun a b => rfl, fun a => .inl rfl, fun a b v h => Option.noConfusion h⟩

/-- The computed matrix has an entry for every ordered pair of teams. -/
theorem ctd_total (oracle : Coord → Coord → Option ℚ)
    (coords : Nat → Option Coord) (teams : List Nat) :
    ∀ t1 ∈ teams, ∀ t2 ∈ teams,
      ((calculateTeamDistances oracle coords teams) (t1, t2)).isSome := by
  intro t1 h1 t2 h2
  obtain ⟨i, hi⟩ := List.mem_iff_getElem?.mp h1
  obtain ⟨j, hj⟩ := List.mem_iff_getElem?.mp h2
  obtain ⟨l1, l2, hsplit⟩ := List.append_of_mem (enumPairs_mem_of_getElem hi hj)
  show (List.foldl (tdStep oracle coords) (fun _ => none)
    (enumPairs teams) (t1, t2)).isSome
  rw [hsplit, List.foldl_append, List.foldl_cons]
  exact foldl_inv (tdStep oracle coords)
    (fun m => (m (t1, t2)).isSome) (fun _ => True)
    (fun m p _ hm => tdStep_mono oracle coords m p (t1, t2) hm)
    l2 _ (fun _ _ => trivial)
    (tdStep_establish oracle coords _ ((i, t1), (j, t2)))

/-- The computed matrix stores `0` on the diagonal of every team. -/
theorem ctd_diag (oracle : Coord → Coord → Option ℚ)
    (coords : Nat → Option Coord) (teams : List Nat) (hnd : teams.Nodup) :
    ∀ t ∈ teams,
      calculateTeamDistances oracle coords teams (t, t) = some 0 := by
  intro t ht
  obtain ⟨i, hi⟩ := List.mem_iff_getElem?.mp ht
  obtain ⟨l1, l2, hsplit⟩ := List.append_of_mem (enumPairs_mem_of_getElem hi hi)
  have hl2 : ∀ p ∈ l2, (p.1.1 = p.2.1 → p.1.2 = p.2.2) ∧
      (¬ p.1.1 = p.2.1 → ¬ p.1.2 = p.2.2) := by
    intro p hpl
    refine enumPairs_prop hnd ?_
    rw [hsplit]
    exact List.mem_append.mpr (.inr (List.mem_cons_of_mem _ hpl))
  show List.foldl (tdStep oracle coords) (fun _ => none)
    (enumPairs teams) (t, t) = some 0
  rw [hsplit, List.foldl_append, List.foldl_cons]
  refine foldl_inv (tdStep oracle coords)
    (fun m => m (t, t) = some 0)
    (fun p => (p.1.1 = p.2.1 → p.1.2 = p.2.2) ∧
      (¬ p.1.1 = p.2.1 → ¬ p.1.2 = p.2.2))
    (fun m p hq hm => tdStep_diag_pres oracle coords m p hq.1 hq.2 t hm)
    l2 _ hl2 ?_
  rcases tdStep_cases oracle coords
      (l1.foldl (tdStep oracle coords) (fun _ => none)) ((i, t), (i, t)) with
    ⟨_, heq⟩ | ⟨hij, _⟩ | ⟨hij, _⟩
  · rw [heq, DistMap.insert_self]
  · exact absurd rfl hij
  · exact absurd rfl hij

/-- The validation step is the identity on present keys. -/
theorem cdPatchStep_present (m : DistMap) (q : Nat × Nat)
    (h : (m q).isSome) : cdPatchStep m q = m := by
  cases hq : m q with
  | some v => simp [cdPatchStep, hq]
  | none =>
    rw [hq] at h
    exact Bool.noConfusion h

/-- The validation loop is the identity on a matrix covering its key list. -/
theorem foldl_cdPatch_id : ∀ (l : List (Nat × Nat)) (m : DistMap),
    (∀ q ∈ l, (m q).isSome) → l.foldl cdPatchStep m = m := by
  intro l
  induction l with
  | nil =>
    intro m _
    rfl
  | cons q t ih =>
    intro m hl
    rw [List.foldl_cons, cdPatchStep_present m q (hl q (List.mem_cons_self q t))]
    exact ih m (fun x hx => hl x (List.mem_cons_of_mem q hx))

/-- On a matrix total over the team pairs, `calculate_distances`'s
validation pass changes nothing. -/
theorem cdPatch_id (m : DistMap) (teams : List Nat)
    (h : ∀ t1 ∈ teams, ∀ t2 ∈ teams, (m (t1, t2)).isSome) :
    cdPatch m teams = m := by
  refine foldl_cdPatch_id _ m ?_
  intro q hq
  obtain ⟨a, ha, hb⟩ := List.mem_flatMap.mp hq
  obtain ⟨b, hbm, hqe⟩ := List.mem_map.mp hb
  subst hqe
  exact h a ha b hbm

/-- C7.  Distance-matrix invariant I7: for a duplicate-free team list and a
route oracle returning only non-negative distances, the matrix built by
`calculate_team_distances` and validated by `calculate_distances` has an
entry for every ordered team pair (so the validation's `2.5` fallback never
fires and the patch is the identity), stores `0` on every team's diagonal,
is symmetric everywhere — including the `3.0` missing-coordinate and `2.5`
upstream-failure fallback entries, which are written in both directions —
and contains only non-negative values. -/
theorem c7_distance_matrix (oracle : Coord → Coord → Option ℚ)
    (coords : Nat → Option Coord) (teams : List Nat) (hnd : teams.Nodup)
    (hor : ∀ c1 c2 d, oracle c1 c2 = some d → 0 ≤ d) :
    cdPatch (calculateTeamDistances oracle coords teams) teams =
      calculateTeamDistances oracle coords teams ∧
    (∀ t ∈ teams,
      cdPatch (calculateTeamDistances oracle coords teams) teams (t, t) =
        some 0) ∧
    (∀ a b,
      cdPatch (calculateTeamDistances oracle coords teams) teams (a, b) =
      cdPatch (calculateTeamDistances oracle coords teams) teams (b, a)) ∧
    (∀ a b v,
      cdPatch (calculateTeamDistances oracle coords teams) teams (a, b) =
        some v → 0 ≤ v) ∧
    (∀ t1 ∈ teams, ∀ t2 ∈ teams,
      (cdPatch (calculateTeamDistances oracle coords teams) teams
        (t1, t2)).isSome) := by
  have htot := ctd_total oracle coords teams
  have hpatch : cdPatch (calculateTeamDistances oracle coords teams) teams =
      calculateTeamDistances oracle coords teams :=
    cdPatch_id _ teams htot
  obtain ⟨hsym, -, hnn⟩ := ctd_inv oracle coords teams hnd hor
  refine ⟨hpatch, ?_, ?_, ?_, ?_⟩
  · rw [hpatch]
    exact ctd_diag oracle coords teams hnd
  · rw [hpatch]
    exact hsym
  · rw [hpatch]
    exact hnn
  · rw [hpatch]
    exact htot

/-- Witness for C7 on a concrete two-team instance with the constant-1 km
oracle. -/
theorem c7_distance_matrix_witness :
    cdPatch (calculateTeamDistances exApi exC7Coords [1, 2]) [1, 2] =
      calculateTeamDistances exApi exC7Coords [1, 2] ∧
    (∀ t ∈ [1, 2], cdPatch (calculateTeamDistances exApi exC7Coords [1, 2])
      [1, 2] (t, t) = some 0) ∧
    (∀ a b, cdPatch (calculateTeamDistances exApi exC7Coords [1, 2]) [1, 2]
      (a, b) =
      cdPatch (calculateTeamDistances exApi exC7Coords [1, 2]) [1, 2]
      (b, a)) ∧
    (∀ a b v, cdPatch (calculateTeamDistances exApi exC7Coords [1, 2]) [1, 2]
      (a, b) = some v → 0 ≤ v) ∧
    (∀ t1 ∈ [1, 2], ∀ t2 ∈ [1, 2],
      (cdPatch (calculateTeamDistances exApi exC7Coords [1, 2]) [1, 2]
        (t1, t2)).isSome) :=
  c7_distance_matrix exApi exC7Coords [1, 2] (by decide)
    (fun c1 c2 d h => by
      simp only [exApi] at h
      rw [← Option.some.inj h]
      norm_num)

end RD
